import Mathlib

/-!
Verification of the openapi-sample-emulator response-resolution pipeline.

The Go sources are shallowly embedded: each Go function that the claims
mention is translated into an executable Lean definition operating on the
same data (strings, lists, integer indices).  Go `map` values are modelled
as functions `String → Option α` (presence = `some`), or as canonically
sorted association lists where round-tripping through JSON matters.
Go `strings.ToUpper` / `ToLower` / `TrimSpace` are modelled on the ASCII
range, which covers every comparison the program performs (HTTP methods,
the literals "1"/"true"/"yes", path templates).
-/

namespace Emu

/-- ASCII uppercase of one character (model of the `strings.ToUpper` action
on the characters this program compares). -/
def goUpperChar (c : Char) : Char :=
  if c = 'a' then 'A' else if c = 'b' then 'B' else if c = 'c' then 'C'
  else if c = 'd' then 'D' else if c = 'e' then 'E' else if c = 'f' then 'F'
  else if c = 'g' then 'G' else if c = 'h' then 'H' else if c = 'i' then 'I'
  else if c = 'j' then 'J' else if c = 'k' then 'K' else if c = 'l' then 'L'
  else if c = 'm' then 'M' else if c = 'n' then 'N' else if c = 'o' then 'O'
  else if c = 'p' then 'P' else if c = 'q' then 'Q' else if c = 'r' then 'R'
  else if c = 's' then 'S' else if c = 't' then 'T' else if c = 'u' then 'U'
  else if c = 'v' then 'V' else if c = 'w' then 'W' else if c = 'x' then 'X'
  else if c = 'y' then 'Y' else if c = 'z' then 'Z' else c

/-- ASCII lowercase of one character (model of the `strings.ToLower` action
on the characters this program compares). -/
def goLowerChar (c : Char) : Char :=
  if c = 'A' then 'a' else if c = 'B' then 'b' else if c = 'C' then 'c'
  else if c = 'D' then 'd' else if c = 'E' then 'e' else if c = 'F' then 'f'
  else if c = 'G' then 'g' else if c = 'H' then 'h' else if c = 'I' then 'i'
  else if c = 'J' then 'j' else if c = 'K' then 'k' else if c = 'L' then 'l'
  else if c = 'M' then 'm' else if c = 'N' then 'n' else if c = 'O' then 'o'
  else if c = 'P' then 'p' else if c = 'Q' then 'q' else if c = 'R' then 'r'
  else if c = 'S' then 's' else if c = 'T' then 't' else if c = 'U' then 'u'
  else if c = 'V' then 'v' else if c = 'W' then 'w' else if c = 'X' then 'x'
  else if c = 'Y' then 'y' else if c = 'Z' then 'z' else c

/-- Model of Go `strings.ToUpper`. -/
def goUpper (s : String) : String :=
  String.mk (s.data.map goUpperChar)

/-- Model of Go `strings.ToLower`. -/
def goLower (s : String) : String :=
  String.mk (s.data.map goLowerChar)

/-- Model of Go `strings.TrimSpace` (ASCII whitespace). -/
def goTrimSpace (s : String) : String :=
  String.mk (((s.data.dropWhile Char.isWhitespace).reverse.dropWhile
    Char.isWhitespace).reverse)

/-- Model of Go `utils.GetEnvAsBool` after the environment read: `envVal`
is the raw value of the variable (`""` when unset, since `os.Getenv`
returns the empty string then). -/
def getEnvAsBool (envVal : String) (defaultVal : Bool) : Bool :=
  let val := goLower envVal
  if val = "" then defaultVal
  else val = "1" || val = "true" || val = "yes"

/-- Split a character list at every occurrence of `sep`; the semantics of
Go `strings.Split` with a one-character separator (always returns at least
one piece; adjacent separators produce empty pieces). -/
def splitChar (sep : Char) : List Char → List (List Char)
  | [] => [[]]
  | c :: cs =>
    if c = sep then [] :: splitChar sep cs
    else
      match splitChar sep cs with
      | [] => [[c]]
      | g :: gs => (c :: g) :: gs

/-- Model of Go `strings.Split(s, "/")`. -/
def splitSlash (s : String) : List String :=
  (splitChar '/' s.data).map String.mk

/-- Model of Go `strings.Trim(s, "/")`. -/
def trimSlashes (s : String) : String :=
  String.mk (((s.data.dropWhile (fun c => c = '/')).reverse.dropWhile
    (fun c => c = '/')).reverse)

/-- Model of the Go test `strings.HasPrefix(p, "\x7b") && strings.HasSuffix(p, "\x7d")`
used throughout the source to recognise a `{name}` parameter segment. -/
def isParamSeg (s : String) : Bool :=
  match s.data with
  | [] => false
  | c :: cs => c = '{' && (List.getLast (c :: cs) (by simp)) = '}'

/-- Model of `strings.TrimSuffix(strings.TrimPrefix(p, "\x7b"), "\x7d")` as applied
by `extractPathParam` to a segment already known to carry both braces. -/
def stripBraces (s : String) : String :=
  String.mk ((s.data.drop 1).dropLast)

/-- Embedding of `matchTemplatePathSuffix` (resolve_test.go:540-560): the
template segments must equal the trailing segments of the concrete path,
a `{name}` template segment is skipped without any check, and the concrete
path must have at least as many segments as the template. -/
def matchTemplatePathSuffix (tpl actual : String) : Bool :=
  let tplParts := splitSlash (trimSlashes tpl)
  let actParts := splitSlash (trimSlashes actual)
  if actParts.length < tplParts.length then false
  else
    let tailParts := actParts.drop (actParts.length - tplParts.length)
    (tplParts.zip tailParts).all fun ta =>
      if isParamSeg ta.1 then true else ta.1 = ta.2

/-- Embedding of `extractPathParam` (resolve_test.go:562-578): template and
concrete path must have the same number of segments; the first `{name}`
template segment whose name equals `want` yields the concrete segment. -/
def extractPathParam (swaggerTpl actualPath want : String) : Option String :=
  let tplParts := splitSlash (trimSlashes swaggerTpl)
  let actParts := splitSlash (trimSlashes actualPath)
  if tplParts.length ≠ actParts.length then none
  else
    ((tplParts.zip actParts).find? fun pa =>
      isParamSeg pa.1 && stripBraces pa.1 = want).map Prod.snd

/-- Embedding of `scenarioRuntimeKey` (resolve_test.go:518-520). -/
def scenarioRuntimeKey (swaggerTpl keyVal : String) : String :=
  goUpper (goTrimSpace swaggerTpl) ++ "::" ++ keyVal

/-- Scenario behavior match rule (`MatchRule` in model.go). -/
structure MatchRule where
  method : String
  path : String
deriving DecidableEq

/-- One step-mode sequence entry (`ScenarioEntry` in model.go). -/
structure ScenarioEntry where
  state : String
  file : String
deriving DecidableEq

/-- One time-mode timeline entry (`TimelineEntry` in model.go); `afterSec`
is a Go `int64`. -/
structure TimelineEntry where
  afterSec : Int
  state : String
  file : String
deriving DecidableEq

/-- Scenario behavior block (`Behavior` in model.go). -/
structure Behavior where
  advanceOn : List MatchRule
  resetOn : List MatchRule
  startOn : List MatchRule
  repeatLast : Bool
  loop : Bool
deriving DecidableEq

/-- Scenario descriptor (`Scenario` in model.go); `keyPathParam` stands for
the nested `Key.PathParam` field. -/
structure Scenario where
  version : Int
  mode : String
  keyPathParam : String
  sequence : List ScenarioEntry
  timeline : List TimelineEntry
  behavior : Behavior
deriving DecidableEq

/-- Registered reset rule (`ResetRule` in model.go). -/
structure ResetRule where
  method : String
  pathTpl : String
deriving DecidableEq

/-- Origin of a registered reset rule (`ResetBinding` in model.go). -/
structure ResetBinding where
  scenarioTpl : String
  keyParam : String
deriving DecidableEq

/-- One element of the `resetByMethod` cross-index: the anonymous
`struct { rule ResetRule; binding ResetBinding }` of resolve.go. -/
structure RegEntry where
  rule : ResetRule
  binding : ResetBinding
deriving DecidableEq

/-- Runtime state of a `ScenarioResolver`: the four maps of the Go struct,
modelled as functions (`none` / `[]` = key absent from the Go map). -/
structure ResolverState where
  stepIndex : String → Option Int
  startedAt : String → Option Int
  resetRules : String → Option (List ResetRule)
  resetByMethod : String → List RegEntry

/-- State of `NewScenarioResolver()`: all maps empty. -/
def emptyResolver : ResolverState :=
  ⟨fun _ => none, fun _ => none, fun _ => none, fun _ => []⟩

/-- Pointwise map update (Go `m[k] = v` / `delete(m, k)` for `v = none`). -/
def mapSet {α : Type} (f : String → Option α) (k : String) (v : Option α) :
    String → Option α :=
  fun x => if x = k then v else f x

/-- Embedding of `matchesAny` (resolve_test.go:522-538). -/
def matchesAny (rules : List MatchRule) (method actualPath : String) : Bool :=
  rules.any fun r =>
    goUpper (goTrimSpace r.method) = goUpper method &&
      (goTrimSpace r.path = "" ||
        matchTemplatePathSuffix (goTrimSpace r.path) actualPath)

/-- Embedding of `ScenarioResolver.resolveStep` (resolve_test.go:434-472).
The Go method mutates the receiver; here the updated state is returned.
`sc.sequence.getD idx.toNat` stands for the Go indexing `sc.Sequence[idx]`,
whose index is clamped into range just above it. -/
def resolveStep (st : ResolverState) (k : String) (sc : Scenario)
    (method : String) : Except String (String × String) × ResolverState :=
  if sc.sequence.length = 0 then
    (.error "step mode requires non-empty sequence", st)
  else
    let idx0 : Int := (st.stepIndex k).getD 0
    let idx1 : Int := if idx0 < 0 then 0 else idx0
    let idx : Int :=
      if idx1 ≥ (sc.sequence.length : Int) then (sc.sequence.length : Int) - 1
      else idx1
    let entry := sc.sequence.getD idx.toNat ⟨"", ""⟩
    let nextIdx : Int :=
      if matchesAny sc.behavior.advanceOn method "" then
        let n := idx + 1
        if n ≥ (sc.sequence.length : Int) then
          if sc.behavior.loop then 0
          else if sc.behavior.repeatLast then (sc.sequence.length : Int) - 1
          else (sc.sequence.length : Int) - 1
        else n
      else idx
    (.ok (entry.file, entry.state),
      { st with stepIndex := mapSet st.stepIndex k (some nextIdx) })

/-- Go timestamps are `int64` nanoseconds (`time.Duration`); the source
computes `int64(time.Since(t0).Seconds())`, i.e. the elapsed nanoseconds
divided by 1e9 and truncated toward zero, which `Int.tdiv` performs. -/
def elapsedSeconds (nowNs t0Ns : Int) : Int :=
  Int.tdiv (nowNs - t0Ns) 1000000000

/-- Go `for ... break` selection loop of `resolveTime`: keep replacing
`chosen` while `afterSec ≤ e`, stop at the first entry beyond. -/
def chooseFrom (e : Int) : List TimelineEntry → TimelineEntry → TimelineEntry
  | [], c => c
  | t :: ts, c => if t.afterSec ≤ e then chooseFrom e ts t else c

/-- Timeline selection of `resolveTime`: start from `timeline[0]`. -/
def chooseTimeline (tl : List TimelineEntry) (e : Int) : TimelineEntry :=
  chooseFrom e tl (tl.headD ⟨0, "", ""⟩)

/-- Embedding of `ScenarioResolver.resolveTime` (resolve_test.go:474-516).
Wall-clock reads are made explicit: `now` is the value `time.Now()` takes
during this call (nanoseconds), and the stored start timestamps live in
`startedAt`.  Note both arms of the Go `startOn` test publish the same
timestamp. -/
def resolveTime (st : ResolverState) (k : String) (sc : Scenario)
    (method actualPath : String) (now : Int) :
    Except String (String × String) × ResolverState :=
  if sc.timeline.length = 0 then
    (.error "time mode requires non-empty timeline", st)
  else
    let pre := st.startedAt k
    let t0 : Int := pre.getD now
    let st1 :=
      match pre with
      | some _ => st
      | none =>
        if sc.behavior.startOn.length = 0 ||
            matchesAny sc.behavior.startOn method actualPath then
          { st with startedAt := mapSet st.startedAt k (some now) }
        else
          { st with startedAt := mapSet st.startedAt k (some now) }
    let elapsed0 : Int := elapsedSeconds now t0
    let total0 : Int := (sc.timeline.getLastD ⟨0, "", ""⟩).afterSec
    let total : Int := if total0 < 0 then 0 else total0
    let elapsed : Int :=
      if sc.behavior.loop && total > 0 then Int.tmod elapsed0 (total + 1)
      else if sc.behavior.repeatLast && elapsed0 > total then total
      else if elapsed0 > total then total
      else elapsed0
    let chosen := chooseTimeline sc.timeline elapsed
    (.ok (chosen.file, chosen.state), st1)

/-- The three `delete(...)` statements of the `TryResetByRequest` loop
body: remove the runtime slot `rk` from `stepIndex`, `startedAt` and
`resetRules`. -/
def resetSlot (s : ResolverState) (rk : String) : ResolverState :=
  { s with
    stepIndex := mapSet s.stepIndex rk none
    startedAt := mapSet s.startedAt rk none
    resetRules := mapSet s.resetRules rk none }

/-- Loop body of `TryResetByRequest`: skip entries whose non-empty rule
template does not suffix-match or whose key parameter does not extract to
a non-blank value; otherwise delete the addressed runtime slot and record
that a reset happened. -/
def tryResetStep (actualPath : String) (acc : Bool × ResolverState)
    (it : RegEntry) : Bool × ResolverState :=
  if it.rule.pathTpl ≠ "" &&
      !matchTemplatePathSuffix it.rule.pathTpl actualPath then acc
  else
    match extractPathParam it.rule.pathTpl actualPath it.binding.keyParam with
    | none => acc
    | some keyVal =>
      if goTrimSpace keyVal = "" then acc
      else
        (true, resetSlot acc.2 (scenarioRuntimeKey it.binding.scenarioTpl keyVal))

/-- Embedding of `ScenarioResolver.TryResetByRequest`
(resolve_test.go:396-432). -/
def tryResetByRequest (st : ResolverState) (method actualPath : String) :
    Bool × ResolverState :=
  let m := goUpper method
  let list := st.resetByMethod m
  if list.isEmpty then (false, st)
  else list.foldl (tryResetStep actualPath) (false, st)

/-- Which runtime key (if any) a cross-index entry resets for a given
concrete path: the rule template must suffix-match (an empty template
skips that test), and the key parameter must extract to a non-blank
value.  This mirrors the skip conditions of the `TryResetByRequest`
loop body. -/
def entryResetKey (e : RegEntry) (actualPath : String) : Option String :=
  if e.rule.pathTpl ≠ "" &&
      !matchTemplatePathSuffix e.rule.pathTpl actualPath then none
  else
    match extractPathParam e.rule.pathTpl actualPath e.binding.keyParam with
    | none => none
    | some keyVal =>
      if goTrimSpace keyVal = "" then none
      else some (scenarioRuntimeKey e.binding.scenarioTpl keyVal)

/-- Normalisation of `behavior.resetOn` entries on first sight of a runtime
key (resolve.go: method uppercased, path trimmed). -/
def derivedRules (sc : Scenario) : List ResetRule :=
  sc.behavior.resetOn.map fun r =>
    ⟨goUpper (goTrimSpace r.method), goTrimSpace r.path⟩

/-- One iteration of the registration loop of `ResolveScenarioFile`:
skip blank rules, and append to `resetByMethod[rr.method]` only when no
entry with the same (path template, scenario template, key param) exists. -/
def registerOne (swaggerTpl keyParam : String) (acc : ResolverState)
    (rr : ResetRule) : ResolverState :=
  if rr.method = "" || rr.pathTpl = "" then acc
  else
    let entries := acc.resetByMethod rr.method
    if entries.any fun it =>
        it.rule.pathTpl = rr.pathTpl &&
        it.binding.scenarioTpl = swaggerTpl &&
        it.binding.keyParam = keyParam then acc
    else
      { acc with
        resetByMethod := fun m =>
          if m = rr.method then entries ++ [⟨rr, ⟨swaggerTpl, keyParam⟩⟩]
          else acc.resetByMethod m }

/-- The registration step of `ResolveScenarioFile` (resolve_test.go:345-384):
populate `resetRules[k]` on first sight of the key, then walk the stored
rules feeding the `resetByMethod` cross-index. -/
def registerResetRules (st : ResolverState) (k : String) (sc : Scenario)
    (swaggerTpl : String) : ResolverState :=
  let rules :=
    match st.resetRules k with
    | some r => r
    | none => derivedRules sc
  let st1 :=
    match st.resetRules k with
    | some _ => st
    | none => { st with resetRules := mapSet st.resetRules k (some (derivedRules sc)) }
  rules.foldl (registerOne swaggerTpl sc.keyPathParam) st1

/-- Embedding of `ScenarioResolver.ResolveScenarioFile`
(resolve_test.go:322-394): extract the instance key, register reset rules,
then dispatch on the scenario mode. -/
def resolveScenarioFile (st : ResolverState) (sc : Scenario)
    (method swaggerTpl actualPath : String) (now : Int) :
    Except String (String × String) × ResolverState :=
  let m := goUpper method
  match extractPathParam swaggerTpl actualPath sc.keyPathParam with
  | none => (.error "cannot extract key path param", st)
  | some keyVal =>
    if goTrimSpace keyVal = "" then (.error "cannot extract key path param", st)
    else
      let k := scenarioRuntimeKey swaggerTpl keyVal
      let st1 := registerResetRules st k sc swaggerTpl
      if sc.mode = "step" then resolveStep st1 k sc m
      else if sc.mode = "time" then resolveTime st1 k sc m actualPath now
      else (.error "unsupported mode", st1)

/-- Declarative suffix matching on segment lists, as the source behaves:
the concrete path has at least as many segments, and every non-parameter
template segment equals the aligned trailing concrete segment (parameter
segments accept any segment, the empty one included). -/
def SegsSuffixMatch (tp ap : List String) : Prop :=
  tp.length ≤ ap.length ∧
    ∀ i, i < tp.length → isParamSeg (tp.getD i "") = false →
      tp.getD i "" = ap.getD (ap.length - tp.length + i) ""

/-- Declarative form of template-suffix matching on whole paths. -/
def SuffixMatches (tpl actual : String) : Prop :=
  SegsSuffixMatch (splitSlash (trimSlashes tpl)) (splitSlash (trimSlashes actual))

/-- Modelled from the spec: suffix matching as the claim words it, with
parameter segments accepting only NON-EMPTY concrete segments. -/
def SegsSuffixMatchNonEmpty (tp ap : List String) : Prop :=
  tp.length ≤ ap.length ∧
    ∀ i, i < tp.length →
      (isParamSeg (tp.getD i "") = true →
        ap.getD (ap.length - tp.length + i) "" ≠ "") ∧
      (isParamSeg (tp.getD i "") = false →
        tp.getD i "" = ap.getD (ap.length - tp.length + i) "")

/-- Modelled from the spec: whole-path form of the claimed matching. -/
def ClaimedSuffixMatch (tpl actual : String) : Prop :=
  SegsSuffixMatchNonEmpty (splitSlash (trimSlashes tpl)) (splitSlash (trimSlashes actual))

/-- The scenario of spec §8 concrete case 4: registered under
`/scans/{id}/status`, reset on `DELETE /scans/{id}`. -/
def scanScenario : Scenario :=
  { version := 1
    mode := "step"
    keyPathParam := "id"
    sequence := [⟨"a", "a.json"⟩, ⟨"b", "b.json"⟩]
    timeline := []
    behavior :=
      { advanceOn := [⟨"GET", ""⟩]
        resetOn := [⟨"DELETE", "/scans/{id}"⟩]
        startOn := []
        repeatLast := true
        loop := false } }

/-- Resolver state after one resolve of `scanScenario` for id=1 (the reset
rule is now registered and a step slot exists). -/
def scanState : ResolverState :=
  (resolveScenarioFile emptyResolver scanScenario "GET" "/scans/{id}/status"
    "/scans/1/status" 0).2

/-- Spec-side formulation of the step-mode index clamp: the stored index
(default 0) clamped into `[0, len-1]`. -/
def specClampIdx (stored : Option Int) (n : Int) : Int :=
  min (max (stored.getD 0) 0) (n - 1)

/-- Spec-side formulation of the persisted successor index: `idx+1`, which
on overflow wraps to 0 when `loop` and clamps to the last index otherwise
(for either value of `repeatLast`). -/
def specNextIdx (idx n : Int) (loop : Bool) : Int :=
  if idx + 1 ≥ n then (if loop then 0 else n - 1) else idx + 1

/-- Spec-side formulation of rule matching: some rule's method equals the
request method case-insensitively, and its trimmed path is either empty
(match-any) or suffix-matches the concrete path under test. -/
def RuleMatches (rules : List MatchRule) (method actualPath : String) : Prop :=
  ∃ r ∈ rules, goUpper (goTrimSpace r.method) = goUpper method ∧
    (goTrimSpace r.path = "" ∨
      matchTemplatePathSuffix (goTrimSpace r.path) actualPath = true)

/-- The scenario of spec §8 concrete case 1: three states, advance on GET,
sticky last. -/
def stepScenario : Scenario :=
  { version := 1
    mode := "step"
    keyPathParam := "id"
    sequence :=
      [⟨"requested", "a.json"⟩, ⟨"running", "b.json"⟩, ⟨"done", "c.json"⟩]
    timeline := []
    behavior :=
      { advanceOn := [⟨"GET", ""⟩]
        resetOn := []
        startOn := []
        repeatLast := true
        loop := false } }

/-- One `GET /items/1` resolution against `stepScenario`. -/
def stepResolve (s : ResolverState) :
    Except String (String × String) × ResolverState :=
  resolveScenarioFile s stepScenario "GET" "/items/{id}" "/items/1" 0

/-- Four consecutive GET resolutions for the same key. -/
def stepS1 : Except String (String × String) × ResolverState :=
  stepResolve emptyResolver

/-- Second consecutive GET resolution. -/
def stepS2 : Except String (String × String) × ResolverState :=
  stepResolve stepS1.2

/-- Third consecutive GET resolution. -/
def stepS3 : Except String (String × String) × ResolverState :=
  stepResolve stepS2.2

/-- Fourth consecutive GET resolution. -/
def stepS4 : Except String (String × String) × ResolverState :=
  stepResolve stepS3.2

/-- One step-mode resolution request in a trace: the runtime key it
addresses and the HTTP method it carries. -/
structure StepCall where
  key : String
  method : String

/-- Replay of a trace of `resolveStep` calls (any methods, any keys)
against a fixed scenario. -/
def runSteps (sc : Scenario) : List StepCall → ResolverState → ResolverState
  | [], st => st
  | c :: cs, st => runSteps sc cs (resolveStep st c.key sc c.method).2

/-- All stored step indices lie in `[0, len(sequence)-1]`. -/
def StepIdxInRange (sc : Scenario) (st : ResolverState) : Prop :=
  ∀ k v, st.stepIndex k = some v → 0 ≤ v ∧ v ≤ (sc.sequence.length : Int) - 1

/-- Number of entries of a `resetByMethod` bucket carrying a given
(path template, scenario template, key parameter) tuple; the method is the
bucket key, so the four-tuple of the spec is (bucket, p, tpl, kp). -/
def tupleCount (entries : List RegEntry) (p tpl kp : String) : Nat :=
  (entries.filter fun it =>
    it.rule.pathTpl = p && it.binding.scenarioTpl = tpl &&
      it.binding.keyParam = kp).length

/-- Iterated registration of the same (runtime key, scenario, scenario
template) starting from the fresh resolver. -/
def iterRegister (k : String) (sc : Scenario) (tpl : String) : Nat → ResolverState
  | 0 => emptyResolver
  | n + 1 => registerResetRules (iterRegister k sc tpl n) k sc tpl

/-- Spec-side formulation of the time-mode elapsed reduction: with `total`
the LAST timeline entry's `afterSec` (unclamped), reduce modulo `total+1`
when `loop` and `total>0`, else clamp to `total`. -/
def specTimeElapsed (e total : Int) (loop : Bool) : Int :=
  if loop = true ∧ total > 0 then e % (total + 1) else min e total

/-- Spec-side formulation of the time-mode selection: the last timeline
entry whose `afterSec` is at most the reduced elapsed value (the default
only surfaces when no entry qualifies). -/
def specTimeChoice (tl : List TimelineEntry) (e : Int) : TimelineEntry :=
  (tl.filter fun t => t.afterSec ≤ e).getLastD (tl.headD ⟨0, "", ""⟩)

/-- The scenario of spec §8 concrete case 5: two timeline entries at 0s
and 1s, sticky last. -/
def timeScenario : Scenario :=
  { version := 1
    mode := "time"
    keyPathParam := "id"
    sequence := []
    timeline := [⟨0, "t0", "t0.json"⟩, ⟨1, "t1", "t1.json"⟩]
    behavior :=
      { advanceOn := []
        resetOn := []
        startOn := []
        repeatLast := true
        loop := false } }

/-- One `GET /items/5` resolution against `timeScenario` at wall-clock
`now` (nanoseconds). -/
def timeResolve (s : ResolverState) (now : Int) :
    Except String (String × String) × ResolverState :=
  resolveScenarioFile s timeScenario "GET" "/items/{id}" "/items/5" now

/-- Call at elapsed 0 s. -/
def timeS1 : Except String (String × String) × ResolverState :=
  timeResolve emptyResolver 0

/-- Call at elapsed 1.1 s (1100000000 ns). -/
def timeS2 : Except String (String × String) × ResolverState :=
  timeResolve timeS1.2 1100000000

/-- Call at elapsed 5 s. -/
def timeS3 : Except String (String × String) × ResolverState :=
  timeResolve timeS2.2 5000000000

/-- JSON values, the domain `encoding/json` decodes into (`nil`, `bool`,
numbers, `string`, `[]any`, `map[string]any`).  Objects carry their fields
as an association list; Go maps collapse duplicate keys taking the last
occurrence, which the decoding functions below reproduce. -/
inductive Json where
  | null
  | bool (b : Bool)
  | num (q : Rat)
  | str (s : String)
  | arr (xs : List Json)
  | obj (fields : List (String × Json))

/-- Body bytes of a loaded sample: either raw non-JSON text passed through
verbatim, or (the rendering of) a JSON value. -/
inductive Body where
  | raw (s : String)
  | json (j : Json)

/-- The `Response` struct of model.go; headers model the Go
`map[string]string` as a key-sorted association list. -/
structure Response where
  status : Int
  headers : List (String × String)
  body : Body

/-- A sample file's content as `loadFile` discriminates it: empty after
trimming, text that does not parse as a JSON value, or a JSON value. -/
inductive SampleContent where
  | empty
  | text (s : String)
  | jsonVal (j : Json)

/-- A Go `map[string]string` write, on the insertion-ordered association
list representing the map: replace the binding of an existing key, append
a fresh one.  (Go maps are unordered; the list order is a deterministic
representative.) -/
def insertHeader (h : List (String × String)) (k v : String) :
    List (String × String) :=
  match h with
  | [] => [(k, v)]
  | (k0, v0) :: rest =>
    if k = k0 then (k, v) :: rest
    else (k0, v0) :: insertHeader rest k v

/-- Decode a JSON object into `map[string]string` (every value must be a
string; later duplicate keys overwrite earlier ones, as Go maps do). -/
def headersFromJsonAux : List (String × Json) →
    List (String × String) → Option (List (String × String))
  | [], acc => some acc
  | (k, v) :: rest, acc =>
    match v with
    | .str s => headersFromJsonAux rest (insertHeader acc k s)
    | _ => none

/-- Decode of the `headers` object into a Go string map. -/
def headersFromJson (fields : List (String × Json)) :
    Option (List (String × String)) :=
  headersFromJsonAux fields []

/-- Last occurrence of a key in a JSON object, the value a Go map ends up
holding for that key. -/
def lookupLast (fields : List (String × Json)) (key : String) : Option Json :=
  ((fields.filter fun f => f.1 = key).getLast?).map Prod.snd

/-- Decode of the `status` field into a Go `int`: absent or JSON null
leave the zero value, a number must be integral, anything else is a
decode error. -/
def decodeStatus : Option Json → Option Int
  | none => some 0
  | some .null => some 0
  | some (.num q) => if q.den = 1 then some q.num else none
  | some _ => none

/-- Decode of the `headers` field: absent or null leave the nil map, an
object of strings decodes, anything else is a decode error. -/
def decodeHeaders : Option Json → Option (Option (List (String × String)))
  | none => some none
  | some .null => some none
  | some (.obj fields) => (headersFromJson fields).map some
  | some _ => none

/-- Decode of the `body` field into `any`: absent behaves as null. -/
def decodeBody : Option Json → Json
  | none => .null
  | some j => j

/-- Decode of a JSON object into the `Envelope` struct of model.go
(status, headers, body); `none` models a `json.Unmarshal` error. -/
def decodeEnvelope (fields : List (String × Json)) :
    Option (Int × Option (List (String × String)) × Json) :=
  match decodeStatus (lookupLast fields "status"),
      decodeHeaders (lookupLast fields "headers") with
  | some s, some h => some (s, h, decodeBody (lookupLast fields "body"))
  | _, _ => none

/-- Embedding of `looksLikeEnvelope` (sample_provider.go:163-172): the
object is non-empty and has a `status`, `headers` or `body` key. -/
def looksLikeEnvelope (fields : List (String × Json)) : Bool :=
  !fields.isEmpty &&
    ((fields.any fun f => f.1 = "status") ||
      (fields.any fun f => f.1 = "headers") ||
      (fields.any fun f => f.1 = "body"))

/-- Embedding of `headerGet` (sample_provider.go:174-182): first header
whose key compares case-insensitively equal. -/
def headerGet (h : List (String × String)) (key : String) : Option String :=
  (h.find? fun kv => goLower kv.1 = goLower key).map Prod.snd

/-- Body replacement for a nil envelope body (`bodyBytes = []byte("\x7b\x7d")`). -/
def bodyOrEmptyObj (body : Json) : Json :=
  match body with
  | .null => .obj []
  | b => b

/-- Embedding of `loadFile` (sample_provider.go:102-156) at the JSON-value
level: empty content yields the 200/json/empty-object default; a JSON
object that looks like an envelope and decodes is filled with defaults
(status 0 → 200, nil headers → empty map, `content-type` injected only if
no key compares case-insensitively equal, nil body → empty object);
everything else is passed through raw under the 200/json wrapper. -/
def loadFile (content : SampleContent) : Response :=
  match content with
  | .empty => ⟨200, [("content-type", "application/json")], .json (.obj [])⟩
  | .text s => ⟨200, [("content-type", "application/json")], .raw s⟩
  | .jsonVal j =>
    match j with
    | .obj fields =>
      if looksLikeEnvelope fields then
        match decodeEnvelope fields with
        | some (s, hdrs, body) =>
          let status := if s = 0 then 200 else s
          let headers := hdrs.getD []
          let headers2 :=
            if (headerGet headers "content-type").isSome then headers
            else insertHeader headers "content-type" "application/json"
          ⟨status, headers2, .json (bodyOrEmptyObj body)⟩
        | none => ⟨200, [("content-type", "application/json")], .json (.obj fields)⟩
      else ⟨200, [("content-type", "application/json")], .json j⟩
    | _ => ⟨200, [("content-type", "application/json")], .json j⟩

/-- The marshalled form of an envelope with the given components: Go
`json.Marshal` renders the `Envelope` struct fields in declaration order
(status, headers, body), and renders a string map as an object. -/
def marshalEnvelope (status : Int) (headers : List (String × String))
    (body : Json) : SampleContent :=
  .jsonVal (.obj
    [("status", .num (status : Rat)),
     ("headers", .obj (headers.map fun kv => (kv.1, .str kv.2))),
     ("body", body)])

/-- Pairwise-distinct keys: every association list representing a Go
string map has this property. -/
def HeadersNodupKeys (h : List (String × String)) : Prop :=
  List.Pairwise (fun a b => a.1 ≠ b.1) h

/-- A route of the router table (`Route` in openapi, with the compiled
regex represented by its source template — see `regexMatches`). -/
structure Route where
  method : String
  swagger : String
  sampleFile : String
deriving DecidableEq

/-- Core semantics of the pattern `swaggerPathToRegex` compiles: the tail
(after the leading slash) must be the `/`-join of one value per template
segment, where a `\x7bname\x7d` segment matches one or more non-slash
characters and a literal segment matches itself exactly. -/
def regexCoreMatch (segs : List String) (rest : List Char) : Bool :=
  if segs.isEmpty then rest.isEmpty
  else
    let parts := (splitChar '/' rest).map String.mk
    parts.length = segs.length &&
      (segs.zip parts).all fun ta =>
        if isParamSeg ta.1 then ta.2 ≠ "" else ta.1 = ta.2

/-- Matching semantics of the regex `swaggerPathToRegex` builds
(router_provider.go:91-108): `^/` + quoted/parameter segments joined by
`/` + `/?$`; empty template segments are dropped. -/
def regexMatches (swaggerPath path : String) : Bool :=
  let segs := (splitSlash swaggerPath).filter fun p => p ≠ ""
  match path.data with
  | [] => false
  | c :: rest =>
    if c = '/' then
      regexCoreMatch segs rest ||
        (match rest.getLast? with
          | some '/' => regexCoreMatch segs rest.dropLast
          | _ => false)
    else false

/-- Embedding of `routeSpecificityScore` (router_provider.go:70-83):
10 per literal segment, 0 per parameter segment, plus one per segment. -/
def routeSpecificityScore (swaggerPath : String) : Int :=
  let parts := splitSlash (trimSlashes swaggerPath)
  let score := parts.foldl (fun s p => if isParamSeg p then s + 0 else s + 10) 0
  score + parts.length

/-- Loop of `RouterProvider.FindRoute`: keep the best-scoring route whose
method and regex match, preferring earlier routes on ties. -/
def findRouteAux (m path : String) :
    List Route → Option Route → Int → Option Route
  | [], best, _ => best
  | r :: rs, best, bestScore =>
    if ¬ r.method = m then findRouteAux m path rs best bestScore
    else if ¬ regexMatches r.swagger path = true then
      findRouteAux m path rs best bestScore
    else if routeSpecificityScore r.swagger > bestScore then
      findRouteAux m path rs (some r) (routeSpecificityScore r.swagger)
    else findRouteAux m path rs best bestScore

/-- Embedding of `RouterProvider.FindRoute` (router_provider.go:41-64). -/
def findRoute (routes : List Route) (method path : String) : Option Route :=
  findRouteAux (goUpper method) path routes none (-1)

/-- Candidate routes as the claim describes them: uppercased method equal
to the uppercased request method, and regex matching the path. -/
def routeCandidates (routes : List Route) (method path : String) : List Route :=
  routes.filter fun r =>
    goUpper r.method = goUpper method && regexMatches r.swagger path

/-- The Dispatcher's collaborators (spec §2: external interfaces), passed
as oracles: validation configuration and outcome, sample resolution, and
the spec-example fallback. -/
structure HandleDeps where
  validationRequired : Bool
  hasRequiredBody : String → String → Bool
  isEmptyBody : Except String Bool
  resolveAndLoad : String → String → String → String → Except String Response
  fallbackOpenAPI : Bool
  tryGetExampleBody : String → String → Option Json

/-- Outcome of one dispatched request (`Server.handle`). -/
inductive HandleResult where
  | health
  | noRoute
  | badRequest (details : String)
  | resolved (resp : Response)
  | fallback (body : Json)
  | noSample (details : String)

/-- HTTP status the handler writes for each outcome. -/
def statusOf : HandleResult → Int
  | .health => 200
  | .noRoute => 404
  | .badRequest _ => 400
  | .resolved r => r.status
  | .fallback _ => 200
  | .noSample _ => 501

/-- Embedding of `Server.handle` (part_009:111-182): health endpoints,
route lookup (miss → 404), optional body validation (→ 400), sample
resolution, and the spec-example fallback (miss → 501). -/
def handle (deps : HandleDeps) (routes : List Route) (method path : String) :
    HandleResult :=
  if method = "GET" && (path = "/health/alive" || path = "/health/ready" ||
      path = "/health/started") then .health
  else
    match findRoute routes method path with
    | none => .noRoute
    | some rt =>
      let validationFailed : Option HandleResult :=
        if deps.validationRequired then
          if deps.hasRequiredBody rt.swagger rt.method then
            match deps.isEmptyBody with
            | .error e => some (.badRequest e)
            | .ok true => some (.badRequest "Request body is required by the API spec")
            | .ok false => none
          else none
        else none
      match validationFailed with
      | some res => res
      | none =>
        match deps.resolveAndLoad method rt.swagger path rt.sampleFile with
        | .ok resp => .resolved resp
        | .error e =>
          if deps.fallbackOpenAPI then
            match deps.tryGetExampleBody rt.swagger rt.method with
            | some body => .fallback body
            | none => .noSample e
          else .noSample e

/-- An envelope object with any subset of the three keys declared
(status as a JSON integer, headers as an object of strings, body as any
JSON value). -/
def envObj (st : Option Int) (hs : Option (List (String × String)))
    (bd : Option Json) : SampleContent :=
  .jsonVal (.obj
    ((match st with
      | some s => [("status", Json.num (s : Rat))]
      | none => []) ++
    (match hs with
      | some h => [("headers", Json.obj (h.map fun kv => (kv.1, Json.str kv.2)))]
      | none => []) ++
    (match bd with
      | some b => [("body", b)]
      | none => [])))

/-- The Go map a JSON string-object decodes to, as an insertion-ordered
association list. -/
def canonHeaders (h : List (String × String)) : List (String × String) :=
  h.foldl (fun acc kv => insertHeader acc kv.1 kv.2) []

/-- Invariants of every `loadFile` output: a non-zero status, distinct
header keys, and a `content-type` header present. -/
def GoodResponse (r : Response) : Prop :=
  r.status ≠ 0 ∧ HeadersNodupKeys r.headers ∧
    (headerGet r.headers "content-type").isSome = true

/-- A two-route table: a parameterised and a literal template under the
same method. -/
def demoRoutes : List Route :=
  [⟨"GET", "/scans/{id}", "GET__scans_{id}.json"⟩,
   ⟨"GET", "/scans/all", "GET__scans_all.json"⟩]

/-- A resolver state holding one registered reset rule but no runtime slot
at all (as arises when id=1 was resolved and then already reset, or when a
reset request names an id that was never resolved). -/
def cexResetState : ResolverState :=
  { emptyResolver with
    resetByMethod := fun m =>
      if m = "DELETE" then
        [⟨⟨"DELETE", "/scans/{id}"⟩, ⟨"/scans/{id}/status", "id"⟩⟩]
      else [] }

end Emu

namespace Emu

theorem goLower_ne_empty (s : String) (h : s ≠ "") : goLower s ≠ "" := by
  cases s with
  | mk data =>
    cases data with
    | nil => exact absurd rfl h
    | cons c cs => simp [goLower, String.ext_iff]

/-- C9 counterexample: the claim says every value other than 1/true/yes
parses to false, but the empty value (an unset or empty variable) returns
the caller-supplied default, which is true for e.g. SCENARIO_ENABLED. -/
theorem getEnvAsBool_empty_cex :
    getEnvAsBool "" true = true ∧ "" ≠ "1" ∧ "" ≠ "true" ∧ "" ≠ "yes" := by
  refine ⟨rfl, ?_, ?_, ?_⟩ <;> decide

/-- C9 (amended): for every non-empty value, boolean environment-variable
parsing is case-insensitive and yields true exactly for 1, true, yes;
the empty (or unset) value instead yields the supplied default. -/
theorem getEnvAsBool_spec (v : String) (d : Bool) (h : v ≠ "") :
    getEnvAsBool v d =
      (goLower v = "1" ∨ goLower v = "true" ∨ goLower v = "yes" : Bool) := by
  unfold getEnvAsBool
  simp only [goLower_ne_empty v h, if_neg (goLower_ne_empty v h)]
  by_cases h1 : goLower v = "1" <;> by_cases h2 : goLower v = "true" <;>
    by_cases h3 : goLower v = "yes" <;> simp [h1, h2, h3]

/-- C9 witness: evaluating the amended statement at the concrete value
"TRUE" with default false. -/
theorem getEnvAsBool_spec_witness :
    getEnvAsBool "TRUE" false =
      (goLower "TRUE" = "1" ∨ goLower "TRUE" = "true" ∨ goLower "TRUE" = "yes" : Bool) :=
  getEnvAsBool_spec "TRUE" false (by decide)

theorem segs_suffix_iff (tp ap : List String) :
    (if ap.length < tp.length then false
     else
       (tp.zip (ap.drop (ap.length - tp.length))).all fun ta =>
         if isParamSeg ta.1 then true else ta.1 = ta.2) = true ↔
      SegsSuffixMatch tp ap := by
  by_cases h : ap.length < tp.length
  · simp only [if_pos h]
    constructor
    · intro hf; cases hf
    · rintro ⟨hle, -⟩; omega
  · simp only [if_neg h]
    rw [List.all_eq_true]
    have hd : (ap.drop (ap.length - tp.length)).length = tp.length := by
      rw [List.length_drop]; omega
    have hzl : (tp.zip (ap.drop (ap.length - tp.length))).length = tp.length := by
      rw [List.length_zip, hd, Nat.min_self]
    constructor
    · intro hall
      refine ⟨by omega, fun i hi hpar => ?_⟩
      have hiz : i < (tp.zip (ap.drop (ap.length - tp.length))).length := by omega
      have hval := hall _ (List.getElem_mem hiz)
      rw [List.getElem_zip] at hval
      have h3 : ap.length - tp.length + i < ap.length := by omega
      rw [List.getElem_drop] at hval
      rw [List.getD_eq_getElem _ _ hi, List.getD_eq_getElem _ _ h3]
      rw [List.getD_eq_getElem _ _ hi] at hpar
      rw [hpar] at hval
      simpa using hval
    · rintro ⟨hle, hforall⟩ x hx
      obtain ⟨i, hiz, rfl⟩ := List.mem_iff_getElem.mp hx
      have h1 : i < tp.length := by omega
      have h3 : ap.length - tp.length + i < ap.length := by omega
      rw [List.getElem_zip]
      by_cases hp : isParamSeg tp[i]
      · simp [hp]
      · have heq := hforall i h1 (by
          rw [List.getD_eq_getElem _ _ h1]
          simpa using hp)
        rw [List.getD_eq_getElem _ _ h1, List.getD_eq_getElem _ _ h3] at heq
        simp only [List.getElem_drop]
        simp [hp, heq]

/-- C4 counterexample: the suffix matcher skips `{name}` template segments
without checking that the aligned concrete segment is non-empty, so
`/a/{x}/b` matches the concrete path `/a//b` although the claim (parameter
segments accept any NON-empty segment) says it must not. -/
theorem matchTemplatePathSuffix_cex :
    matchTemplatePathSuffix "/a/{x}/b" "/a//b" = true ∧
      ¬ ClaimedSuffixMatch "/a/{x}/b" "/a//b" := by
  constructor
  · decide
  · rintro ⟨-, h⟩
    exact ((h 1 (by decide)).1 (by decide)) (by decide)

theorem tryResetStep_eq (actualPath : String) (acc : Bool × ResolverState)
    (it : RegEntry) :
    tryResetStep actualPath acc it =
      match entryResetKey it actualPath with
      | none => acc
      | some rk => (true, resetSlot acc.2 rk) := by
  unfold tryResetStep entryResetKey
  by_cases h1 : (decide (it.rule.pathTpl ≠ "") &&
      !matchTemplatePathSuffix it.rule.pathTpl actualPath) = true
  · rw [if_pos h1, if_pos h1]
  · rw [if_neg h1, if_neg h1]
    rcases h2 : extractPathParam it.rule.pathTpl actualPath it.binding.keyParam
      with - | kv
    · rfl
    · by_cases h3 : goTrimSpace kv = ""
      · dsimp only
        rw [if_pos h3, if_pos h3]
      · dsimp only
        rw [if_neg h3, if_neg h3]

theorem tryResetFold_spec (actualPath : String) (list : List RegEntry) :
    ∀ (b0 : Bool) (s0 : ResolverState),
      ((list.foldl (tryResetStep actualPath) (b0, s0)).1 =
        (b0 || list.any fun e => (entryResetKey e actualPath).isSome)) ∧
      (∀ k,
        s0.stepIndex k = none → s0.startedAt k = none → s0.resetRules k = none →
        (list.foldl (tryResetStep actualPath) (b0, s0)).2.stepIndex k = none ∧
        (list.foldl (tryResetStep actualPath) (b0, s0)).2.startedAt k = none ∧
        (list.foldl (tryResetStep actualPath) (b0, s0)).2.resetRules k = none) ∧
      (∀ e ∈ list, ∀ k, entryResetKey e actualPath = some k →
        (list.foldl (tryResetStep actualPath) (b0, s0)).2.stepIndex k = none ∧
        (list.foldl (tryResetStep actualPath) (b0, s0)).2.startedAt k = none ∧
        (list.foldl (tryResetStep actualPath) (b0, s0)).2.resetRules k = none) := by
  induction list with
  | nil =>
    intro b0 s0
    exact ⟨by simp, fun k h1 h2 h3 => ⟨h1, h2, h3⟩, by simp⟩
  | cons e rest ih =>
    intro b0 s0
    rw [List.foldl_cons, tryResetStep_eq]
    rcases hk : entryResetKey e actualPath with - | rk
    · simp only [hk]
      obtain ⟨ih1, ih2, ih3⟩ := ih b0 s0
      refine ⟨?_, ih2, ?_⟩
      · rw [ih1]
        simp [List.any_cons, hk]
      · intro x hx k hxk
        rcases List.mem_cons.mp hx with hx | hx
        · rw [hx] at hxk; rw [hk] at hxk; cases hxk
        · exact ih3 x hx k hxk
    · simp only [hk]
      obtain ⟨ih1, ih2, ih3⟩ := ih true (resetSlot s0 rk)
      refine ⟨?_, ?_, ?_⟩
      · rw [ih1]
        simp [List.any_cons, hk]
      · intro k h1 h2 h3
        exact ih2 k (by simp [resetSlot, mapSet, h1])
          (by simp [resetSlot, mapSet, h2]) (by simp [resetSlot, mapSet, h3])
      · intro x hx k hxk
        rcases List.mem_cons.mp hx with hx | hx
        · rw [hx] at hxk; rw [hk] at hxk
          injection hxk with hrk
          rw [← hrk]
          exact ih2 rk (by simp [resetSlot, mapSet])
            (by simp [resetSlot, mapSet]) (by simp [resetSlot, mapSet])
        · exact ih3 x hx k hxk

theorem resolveStep_fresh (st : ResolverState) (k : String) (sc : Scenario)
    (mth : String) (h : st.stepIndex k = none) (hne : sc.sequence ≠ []) :
    (resolveStep st k sc mth).1 =
      .ok ((sc.sequence.headD ⟨"", ""⟩).file,
        (sc.sequence.headD ⟨"", ""⟩).state) := by
  rcases hs : sc.sequence with - | ⟨a, as⟩
  · exact absurd hs hne
  · unfold resolveStep
    rw [hs]
    have hlen : (a :: as).length ≠ 0 := by simp
    rw [if_neg hlen]
    simp only [h, Option.getD_none]
    have h0 : ¬ ((0 : Int) < 0) := by omega
    have h1 : ¬ ((0 : Int) ≥ ((a :: as).length : Int)) := by
      simp only [List.length_cons]
      omega
    rw [if_neg h0, if_neg h1]
    rfl

theorem matchesAny_iff (rules : List MatchRule) (method actualPath : String) :
    matchesAny rules method actualPath = true ↔
      RuleMatches rules method actualPath := by
  unfold matchesAny RuleMatches
  rw [List.any_eq_true]
  constructor
  · rintro ⟨r, hr, hp⟩
    refine ⟨r, hr, ?_⟩
    simpa using hp
  · rintro ⟨r, hr, h1, h2⟩
    refine ⟨r, hr, ?_⟩
    simp [h1, h2]

theorem resolveStep_eq (st : ResolverState) (k : String) (sc : Scenario)
    (mth : String) (hne : sc.sequence ≠ []) :
    resolveStep st k sc mth =
      (.ok ((sc.sequence.getD
          (specClampIdx (st.stepIndex k) sc.sequence.length).toNat ⟨"", ""⟩).file,
        (sc.sequence.getD
          (specClampIdx (st.stepIndex k) sc.sequence.length).toNat ⟨"", ""⟩).state),
       { st with
          stepIndex := mapSet st.stepIndex k (some
            (if matchesAny sc.behavior.advanceOn mth "" then
              specNextIdx (specClampIdx (st.stepIndex k) sc.sequence.length)
                sc.sequence.length sc.behavior.loop
            else specClampIdx (st.stepIndex k) sc.sequence.length)) }) := by
  have hlen : sc.sequence.length ≠ 0 := fun h0 => hne (List.length_eq_zero.mp h0)
  have hn1 : 1 ≤ (sc.sequence.length : Int) := by
    have := Nat.pos_of_ne_zero hlen
    omega
  unfold resolveStep
  rw [if_neg hlen]
  have hclamp :
      (if (if (st.stepIndex k).getD 0 < 0 then 0 else (st.stepIndex k).getD 0) ≥
          (sc.sequence.length : Int) then (sc.sequence.length : Int) - 1
        else if (st.stepIndex k).getD 0 < 0 then 0 else (st.stepIndex k).getD 0) =
      specClampIdx (st.stepIndex k) sc.sequence.length := by
    unfold specClampIdx
    split_ifs <;> omega
  have hnext : ∀ idx : Int,
      (if idx + 1 ≥ (sc.sequence.length : Int) then
        (if sc.behavior.loop then 0
          else if sc.behavior.repeatLast then (sc.sequence.length : Int) - 1
          else (sc.sequence.length : Int) - 1)
      else idx + 1) =
      specNextIdx idx sc.sequence.length sc.behavior.loop := by
    intro idx
    unfold specNextIdx
    split_ifs <;> rfl
  dsimp only
  rw [hclamp, hnext]

/-- C2: in step mode the resolver reads the stored index for the runtime
key (default 0), clamps it into `[0, len-1]`, answers with the file and
state of the sequence entry at that index, and persists the successor
index exactly when the request method matches some `advanceOn` rule
(method case-insensitively; an empty trimmed rule path matches anything,
and a non-empty rule path is tested against the empty concrete path, since
`resolveStep` passes `""`); on overflow the successor wraps to 0 when
`loop` and clamps to the last index otherwise, for either `repeatLast`
value.  Slots of other keys are untouched.  Concretely, a three-entry
sequence with advanceOn GET and repeatLast yields a, b, c, c on four
consecutive GETs for the same key. -/
theorem resolveStep_step_spec (st : ResolverState) (k : String)
    (sc : Scenario) (mth : String) (hne : sc.sequence ≠ []) :
    ((resolveStep st k sc mth).1 =
      .ok ((sc.sequence.getD
          (specClampIdx (st.stepIndex k) sc.sequence.length).toNat ⟨"", ""⟩).file,
        (sc.sequence.getD
          (specClampIdx (st.stepIndex k) sc.sequence.length).toNat ⟨"", ""⟩).state)) ∧
    (RuleMatches sc.behavior.advanceOn mth "" →
      (resolveStep st k sc mth).2.stepIndex k =
        some (specNextIdx (specClampIdx (st.stepIndex k) sc.sequence.length)
          sc.sequence.length sc.behavior.loop)) ∧
    (¬ RuleMatches sc.behavior.advanceOn mth "" →
      (resolveStep st k sc mth).2.stepIndex k =
        some (specClampIdx (st.stepIndex k) sc.sequence.length)) ∧
    (∀ k₂, ¬ k₂ = k →
      (resolveStep st k sc mth).2.stepIndex k₂ = st.stepIndex k₂) ∧
    (stepS1.1 = .ok ("a.json", "requested") ∧
      stepS2.1 = .ok ("b.json", "running") ∧
      stepS3.1 = .ok ("c.json", "done") ∧
      stepS4.1 = .ok ("c.json", "done")) := by
  rw [resolveStep_eq st k sc mth hne]
  refine ⟨rfl, ?_, ?_, ?_, rfl, rfl, rfl, rfl⟩
  · intro hp
    have hadv := (matchesAny_iff _ _ _).mpr hp
    simp [mapSet, hadv]
  · intro hp
    have hadv : ¬ matchesAny sc.behavior.advanceOn mth "" = true :=
      fun h => hp ((matchesAny_iff _ _ _).mp h)
    simp [mapSet, hadv]
  · intro k₂ hk₂
    simp [mapSet, hk₂]

/-- C2 witness: the step specification evaluated on a fresh resolver with
the concrete three-entry scenario. -/
theorem resolveStep_step_spec_witness :
    (resolveStep emptyResolver "K" stepScenario "GET").1 =
      .ok ((stepScenario.sequence.getD
          (specClampIdx (emptyResolver.stepIndex "K")
            stepScenario.sequence.length).toNat ⟨"", ""⟩).file,
        (stepScenario.sequence.getD
          (specClampIdx (emptyResolver.stepIndex "K")
            stepScenario.sequence.length).toNat ⟨"", ""⟩).state) :=
  (resolveStep_step_spec emptyResolver "K" stepScenario "GET" (by decide)).1

theorem specClampIdx_mem (stored : Option Int) (n : Int) (hn : 1 ≤ n) :
    0 ≤ specClampIdx stored n ∧ specClampIdx stored n ≤ n - 1 := by
  unfold specClampIdx
  constructor <;> omega

theorem specClampIdx_fix (v n : Int) (h0 : 0 ≤ v) (h1 : v ≤ n - 1) :
    specClampIdx (some v) n = v := by
  simp only [specClampIdx, Option.getD_some]
  omega

theorem specNextIdx_mem (idx n : Int) (loop : Bool) (hn : 1 ≤ n)
    (h0 : 0 ≤ idx) (h1 : idx ≤ n - 1) :
    0 ≤ specNextIdx idx n loop ∧ specNextIdx idx n loop ≤ n - 1 := by
  unfold specNextIdx
  split_ifs <;> omega

theorem specNextIdx_mono (idx n : Int) (hn : 1 ≤ n) (h1 : idx ≤ n - 1) :
    idx ≤ specNextIdx idx n false := by
  unfold specNextIdx
  split_ifs with h2 h3
  · cases h3
  · omega
  · omega

theorem resolveStep_inv_step (st : ResolverState) (k : String) (sc : Scenario)
    (mth : String) (hne : sc.sequence ≠ []) (hI : StepIdxInRange sc st) :
    StepIdxInRange sc (resolveStep st k sc mth).2 ∧
      (sc.behavior.loop = false → ∀ v, st.stepIndex k = some v →
        ∃ v', (resolveStep st k sc mth).2.stepIndex k = some v' ∧ v ≤ v') := by
  have hn : 1 ≤ (sc.sequence.length : Int) := by
    have := Nat.pos_of_ne_zero (fun h0 => hne (List.length_eq_zero.mp h0))
    omega
  rw [resolveStep_eq st k sc mth hne]
  have hcb := specClampIdx_mem (st.stepIndex k) sc.sequence.length hn
  constructor
  · intro k2 v hv
    simp only [mapSet] at hv
    by_cases hk : k2 = k
    · rw [if_pos hk] at hv
      injection hv with hv
      subst hv
      by_cases hadv : matchesAny sc.behavior.advanceOn mth "" = true
      · rw [if_pos hadv]
        exact specNextIdx_mem _ _ _ hn hcb.1 hcb.2
      · rw [if_neg hadv]
        exact hcb
    · rw [if_neg hk] at hv
      exact hI k2 v hv
  · intro hloop v hv
    have hvb := hI k v hv
    have hclamp : specClampIdx (st.stepIndex k) sc.sequence.length = v := by
      rw [hv]
      exact specClampIdx_fix v _ hvb.1 hvb.2
    refine ⟨(if matchesAny sc.behavior.advanceOn mth "" = true then
        specNextIdx (specClampIdx (st.stepIndex k) sc.sequence.length)
          sc.sequence.length sc.behavior.loop
      else specClampIdx (st.stepIndex k) sc.sequence.length),
      by simp [mapSet], ?_⟩
    by_cases hadv : matchesAny sc.behavior.advanceOn mth "" = true
    · rw [if_pos hadv, hclamp, hloop]
      exact specNextIdx_mono v _ hn hvb.2
    · rw [if_neg hadv, hclamp]

/-- C3: for any scenario with a non-empty sequence and any trace of
step-mode resolutions (any methods, so with or without matching advanceOn
rules, and any interleaving of runtime keys), every stored step index
stays within `[0, len(sequence)-1]`, and when `loop=false` the index of
each key is monotonically non-decreasing along the trace. -/
theorem stepIndex_invariant (sc : Scenario) (hne : sc.sequence ≠ [])
    (calls : List StepCall) (st0 : ResolverState)
    (h0 : StepIdxInRange sc st0) :
    StepIdxInRange sc (runSteps sc calls st0) ∧
      (sc.behavior.loop = false → ∀ k v vend,
        st0.stepIndex k = some v →
        (runSteps sc calls st0).stepIndex k = some vend → v ≤ vend) := by
  induction calls generalizing st0 with
  | nil =>
    refine ⟨h0, fun _ k v vend h1 h2 => ?_⟩
    have h2' : st0.stepIndex k = some vend := h2
    rw [h1] at h2'
    injection h2' with h2'
    omega
  | cons c cs ih =>
    obtain ⟨hstep, hmono⟩ :=
      resolveStep_inv_step st0 c.key sc c.method hne h0
    obtain ⟨ih1, ih2⟩ := ih _ hstep
    refine ⟨ih1, fun hloop k v vend h1 h2 => ?_⟩
    by_cases hk : k = c.key
    · subst hk
      obtain ⟨v', hv', hle⟩ := hmono hloop v h1
      exact le_trans hle (ih2 hloop c.key v' vend hv' h2)
    · have huntouched :
          (resolveStep st0 c.key sc c.method).2.stepIndex k = some v := by
        rw [resolveStep_eq st0 c.key sc c.method hne]
        simpa [mapSet, hk] using h1
      exact ih2 hloop k v vend huntouched h2

/-- C3 witness: the invariant evaluated on a two-call GET trace against
the concrete three-entry scenario, starting from the empty resolver. -/
theorem stepIndex_invariant_witness :
    StepIdxInRange stepScenario
      (runSteps stepScenario [⟨"K", "GET"⟩, ⟨"K", "GET"⟩] emptyResolver) :=
  (stepIndex_invariant stepScenario (by decide) [⟨"K", "GET"⟩, ⟨"K", "GET"⟩]
    emptyResolver (fun _ _ h => Option.noConfusion h)).1

theorem registerOne_resetRules (tpl kp : String) (acc : ResolverState)
    (rr : ResetRule) :
    (registerOne tpl kp acc rr).resetRules = acc.resetRules := by
  unfold registerOne
  dsimp only
  split_ifs <;> rfl

theorem foldRegister_resetRules (tpl kp : String) (rules : List ResetRule) :
    ∀ acc, (rules.foldl (registerOne tpl kp) acc).resetRules = acc.resetRules := by
  induction rules with
  | nil => intro acc; rfl
  | cons rr rest ih =>
    intro acc
    rw [List.foldl_cons, ih, registerOne_resetRules]

theorem any_iff_tupleCount (entries : List RegEntry) (p tpl kp : String) :
    (entries.any fun it =>
      it.rule.pathTpl = p && it.binding.scenarioTpl = tpl &&
        it.binding.keyParam = kp) = true ↔
      0 < tupleCount entries p tpl kp := by
  rw [List.any_eq_true, tupleCount]
  constructor
  · rintro ⟨x, hx, hpx⟩
    exact List.length_pos_of_mem (List.mem_filter.mpr ⟨hx, hpx⟩)
  · intro hpos
    obtain ⟨x, hx⟩ := List.exists_mem_of_length_pos hpos
    obtain ⟨h1, h2⟩ := List.mem_filter.mp hx
    exact ⟨x, h1, h2⟩

theorem registerOne_tupleCount (tpl kp m p : String) (acc : ResolverState)
    (rr : ResetRule) :
    (tupleCount ((registerOne tpl kp acc rr).resetByMethod m) p tpl kp =
        tupleCount (acc.resetByMethod m) p tpl kp) ∨
      (tupleCount (acc.resetByMethod m) p tpl kp = 0 ∧
        tupleCount ((registerOne tpl kp acc rr).resetByMethod m) p tpl kp = 1) := by
  unfold registerOne
  dsimp only
  split_ifs with h1 h2
  · left; rfl
  · left; rfl
  · by_cases hm : m = rr.method
    · dsimp only
      rw [if_pos hm]
      by_cases hp : rr.pathTpl = p
      · right
        have hzero := (not_congr (any_iff_tupleCount
          (acc.resetByMethod rr.method) rr.pathTpl tpl kp)).mp h2
        have hzero2 : tupleCount (acc.resetByMethod rr.method) rr.pathTpl tpl kp = 0 := by
          omega
        rw [hm, ← hp]
        refine ⟨hzero2, ?_⟩
        rw [tupleCount, List.filter_append, List.length_append]
        have : tupleCount (acc.resetByMethod rr.method) rr.pathTpl tpl kp =
            (List.filter (fun it =>
              it.rule.pathTpl = rr.pathTpl && it.binding.scenarioTpl = tpl &&
                it.binding.keyParam = kp) (acc.resetByMethod rr.method)).length := rfl
        rw [← this, hzero2]
        simp
      · left
        rw [tupleCount, List.filter_append, List.length_append]
        have hnew : (List.filter (fun it =>
            it.rule.pathTpl = p && it.binding.scenarioTpl = tpl &&
              it.binding.keyParam = kp)
            [RegEntry.mk rr (ResetBinding.mk tpl kp)]).length = 0 := by
          simp [hp]
        rw [hnew]
        rw [hm]
        rfl
    · dsimp only
      rw [if_neg hm]
      left; rfl

theorem foldRegister_count_le (tpl kp m p : String) (rules : List ResetRule) :
    ∀ acc, tupleCount (acc.resetByMethod m) p tpl kp ≤ 1 →
      tupleCount ((rules.foldl (registerOne tpl kp) acc).resetByMethod m)
        p tpl kp ≤ 1 := by
  induction rules with
  | nil => intro acc h; exact h
  | cons rr rest ih =>
    intro acc h
    rw [List.foldl_cons]
    refine ih _ ?_
    rcases registerOne_tupleCount tpl kp m p acc rr with heq | ⟨-, hone⟩
    · omega
    · omega

theorem foldRegister_count_ge (tpl kp m p : String) (rules : List ResetRule) :
    ∀ acc, 1 ≤ tupleCount (acc.resetByMethod m) p tpl kp →
      1 ≤ tupleCount ((rules.foldl (registerOne tpl kp) acc).resetByMethod m)
        p tpl kp := by
  induction rules with
  | nil => intro acc h; exact h
  | cons rr rest ih =>
    intro acc h
    rw [List.foldl_cons]
    refine ih _ ?_
    rcases registerOne_tupleCount tpl kp m p acc rr with heq | ⟨hzero, -⟩
    · omega
    · omega

theorem registerOne_hit (tpl kp : String) (acc : ResolverState) (rr : ResetRule)
    (hv1 : ¬ rr.method = "") (hv2 : ¬ rr.pathTpl = "") :
    1 ≤ tupleCount ((registerOne tpl kp acc rr).resetByMethod rr.method)
      rr.pathTpl tpl kp := by
  unfold registerOne
  dsimp only
  rw [if_neg (by simp [hv1, hv2])]
  split_ifs with h2
  · have := (any_iff_tupleCount (acc.resetByMethod rr.method) rr.pathTpl tpl kp).mp h2
    omega
  · dsimp only
    rw [if_pos rfl]
    rw [tupleCount, List.filter_append, List.length_append]
    simp

theorem foldRegister_covers (tpl kp : String) (rules : List ResetRule) :
    ∀ acc, ∀ rr ∈ rules, ¬ rr.method = "" → ¬ rr.pathTpl = "" →
      1 ≤ tupleCount ((rules.foldl (registerOne tpl kp) acc).resetByMethod
        rr.method) rr.pathTpl tpl kp := by
  induction rules with
  | nil => intro acc rr h; cases h
  | cons r rest ih =>
    intro acc rr hmem hv1 hv2
    rw [List.foldl_cons]
    rcases List.mem_cons.mp hmem with hx | hx
    · subst hx
      exact foldRegister_count_ge tpl kp rr.method rr.pathTpl rest _
        (registerOne_hit tpl kp acc rr hv1 hv2)
    · exact ih _ rr hx hv1 hv2

theorem registerOne_noop (tpl kp : String) (acc : ResolverState) (rr : ResetRule)
    (h : ¬ rr.method = "" → ¬ rr.pathTpl = "" →
      0 < tupleCount (acc.resetByMethod rr.method) rr.pathTpl tpl kp) :
    registerOne tpl kp acc rr = acc := by
  unfold registerOne
  dsimp only
  split_ifs with h1 h2
  · rfl
  · rfl
  · exfalso
    simp only [Bool.or_eq_true, decide_eq_true_eq] at h1
    push_neg at h1
    exact h2 ((any_iff_tupleCount _ _ _ _).mpr (h h1.1 h1.2))

theorem foldRegister_noop (tpl kp : String) (rules : List ResetRule) :
    ∀ acc, (∀ rr ∈ rules, ¬ rr.method = "" → ¬ rr.pathTpl = "" →
      0 < tupleCount (acc.resetByMethod rr.method) rr.pathTpl tpl kp) →
    rules.foldl (registerOne tpl kp) acc = acc := by
  induction rules with
  | nil => intro acc _; rfl
  | cons r rest ih =>
    intro acc h
    rw [List.foldl_cons, registerOne_noop tpl kp acc r (h r (List.mem_cons_self r rest))]
    exact ih acc (fun rr hm => h rr (List.mem_cons_of_mem r hm))

theorem registerResetRules_eq (st : ResolverState) (k : String) (sc : Scenario)
    (tpl : String) :
    registerResetRules st k sc tpl =
      (match st.resetRules k with
        | some r => r
        | none => derivedRules sc).foldl (registerOne tpl sc.keyPathParam)
        (match st.resetRules k with
          | some _ => st
          | none =>
            { st with resetRules := mapSet st.resetRules k (some (derivedRules sc)) }) :=
  rfl

theorem registerResetRules_resetRules (st : ResolverState) (k : String)
    (sc : Scenario) (tpl : String) :
    (registerResetRules st k sc tpl).resetRules k =
      some (match st.resetRules k with
        | some r => r
        | none => derivedRules sc) := by
  rw [registerResetRules_eq]
  rcases h : st.resetRules k with - | r
  · simp [h, foldRegister_resetRules, mapSet]
  · simp [h, foldRegister_resetRules]

theorem registerRR_idem_aux (st : ResolverState) (k : String) (sc : Scenario)
    (tpl : String) :
    registerResetRules (registerResetRules st k sc tpl) k sc tpl =
      registerResetRules st k sc tpl := by
  have hres := registerResetRules_resetRules st k sc tpl
  rw [registerResetRules_eq (registerResetRules st k sc tpl) k sc tpl, hres]
  apply foldRegister_noop
  intro rr hmem hv1 hv2
  rw [registerResetRules_eq st k sc tpl]
  have := foldRegister_covers tpl sc.keyPathParam
    (match st.resetRules k with | some r => r | none => derivedRules sc)
    (match st.resetRules k with
      | some _ => st
      | none =>
        { st with resetRules := mapSet st.resetRules k (some (derivedRules sc)) })
    rr hmem hv1 hv2
  exact this

/-- C7: reset-rule registration is idempotent — re-running the registration
step of `ResolveScenarioFile` for the same (runtime key, scenario, scenario
template) leaves the state unchanged; the per-key `resetRules` list is
populated only on first sight of the key (a present entry is kept verbatim
and other keys are untouched); and running the registration any positive
number of times from a fresh resolver leaves exactly one `resetByMethod`
entry per registered (method, path template, scenario template, key param)
tuple. -/
theorem registerResetRules_idem (st : ResolverState) (k : String)
    (sc : Scenario) (tpl : String) :
    (registerResetRules (registerResetRules st k sc tpl) k sc tpl =
      registerResetRules st k sc tpl) ∧
    (st.resetRules k = none →
      (registerResetRules st k sc tpl).resetRules k = some (derivedRules sc)) ∧
    (∀ r, st.resetRules k = some r →
      (registerResetRules st k sc tpl).resetRules k = some r) ∧
    (∀ k2, ¬ k2 = k →
      (registerResetRules st k sc tpl).resetRules k2 = st.resetRules k2) ∧
    (∀ n, 1 ≤ n → ∀ rr ∈ derivedRules sc, ¬ rr.method = "" → ¬ rr.pathTpl = "" →
      tupleCount ((iterRegister k sc tpl n).resetByMethod rr.method)
        rr.pathTpl tpl sc.keyPathParam = 1) := by
  refine ⟨registerRR_idem_aux st k sc tpl, ?_, ?_, ?_, ?_⟩
  · intro h
    rw [registerResetRules_resetRules st k sc tpl, h]
  · intro r h
    rw [registerResetRules_resetRules st k sc tpl, h]
  · intro k2 hk2
    rw [registerResetRules_eq, foldRegister_resetRules]
    rcases h : st.resetRules k with - | r
    · simp [mapSet, hk2]
    · rfl
  · have hone : ∀ rr ∈ derivedRules sc, ¬ rr.method = "" → ¬ rr.pathTpl = "" →
        tupleCount ((iterRegister k sc tpl 1).resetByMethod rr.method)
          rr.pathTpl tpl sc.keyPathParam = 1 := by
      intro rr hmem hv1 hv2
      have hge : 1 ≤ tupleCount ((iterRegister k sc tpl 1).resetByMethod
          rr.method) rr.pathTpl tpl sc.keyPathParam := by
        show 1 ≤ tupleCount ((registerResetRules emptyResolver k sc
          tpl).resetByMethod rr.method) rr.pathTpl tpl sc.keyPathParam
        rw [registerResetRules_eq]
        exact foldRegister_covers tpl sc.keyPathParam _ _ rr hmem hv1 hv2
      have hle : tupleCount ((iterRegister k sc tpl 1).resetByMethod
          rr.method) rr.pathTpl tpl sc.keyPathParam ≤ 1 := by
        show tupleCount ((registerResetRules emptyResolver k sc
          tpl).resetByMethod rr.method) rr.pathTpl tpl sc.keyPathParam ≤ 1
        rw [registerResetRules_eq]
        refine foldRegister_count_le tpl sc.keyPathParam rr.method rr.pathTpl _ _ ?_
        show tupleCount ([] : List RegEntry) rr.pathTpl tpl sc.keyPathParam ≤ 1
        simp [tupleCount]
      omega
    have hiter : ∀ n, 1 ≤ n →
        iterRegister k sc tpl n = iterRegister k sc tpl 1 := by
      intro n
      induction n with
      | zero => intro h; omega
      | succ m ih =>
        intro _hn1
        by_cases hm : 1 ≤ m
        · show registerResetRules (iterRegister k sc tpl m) k sc tpl =
            iterRegister k sc tpl 1
          rw [ih hm]
          show registerResetRules (registerResetRules emptyResolver k sc tpl)
            k sc tpl = iterRegister k sc tpl 1
          rw [registerRR_idem_aux]
          rfl
        · have : m = 0 := by omega
          rw [this]
    intro n hn rr hmem hv1 hv2
    rw [hiter n hn]
    exact hone rr hmem hv1 hv2

/-- C7 witness: registering the scan scenario twice leaves exactly one
cross-index entry for its DELETE reset rule. -/
theorem registerResetRules_idem_witness :
    tupleCount ((iterRegister (scenarioRuntimeKey "/scans/{id}/status" "1")
        scanScenario "/scans/{id}/status" 2).resetByMethod "DELETE")
      "/scans/{id}" "/scans/{id}/status" "id" = 1 :=
  (registerResetRules_idem emptyResolver
    (scenarioRuntimeKey "/scans/{id}/status" "1") scanScenario
    "/scans/{id}/status").2.2.2.2 2 (by omega) ⟨"DELETE", "/scans/{id}"⟩
    (by decide) (by decide) (by decide)

theorem chooseFrom_eq (E : Int) :
    ∀ (tl : List TimelineEntry) (c : TimelineEntry),
      List.Pairwise (fun a b => a.afterSec ≤ b.afterSec) tl →
      chooseFrom E tl c = (tl.filter fun t => t.afterSec ≤ E).getLastD c := by
  intro tl
  induction tl with
  | nil => intro c _; rfl
  | cons t ts ih =>
    intro c hp
    obtain ⟨hhead, htail⟩ := List.pairwise_cons.mp hp
    show (if t.afterSec ≤ E then chooseFrom E ts t else c) = _
    by_cases ht : t.afterSec ≤ E
    · rw [if_pos ht, ih t htail, List.filter_cons, if_pos (by simpa using ht)]
      rw [List.getLastD_cons]
    · rw [if_neg ht, List.filter_cons, if_neg (by simpa using ht)]
      have : (ts.filter fun x => x.afterSec ≤ E) = [] := by
        rw [List.filter_eq_nil]
        intro x hx
        simp only [decide_eq_true_eq]
        intro hxE
        exact ht (le_trans (hhead x hx) hxE)
      rw [this]
      rfl

theorem chooseTimeline_spec (tl : List TimelineEntry) (E : Int)
    (hsort : List.Pairwise (fun a b => a.afterSec ≤ b.afterSec) tl) :
    chooseTimeline tl E = specTimeChoice tl E :=
  chooseFrom_eq E tl (tl.headD ⟨0, "", ""⟩) hsort

theorem getLastD_mem_or (tl : List TimelineEntry) :
    ∀ d : TimelineEntry, tl.getLastD d = d ∨ tl.getLastD d ∈ tl := by
  induction tl with
  | nil => intro d; left; rfl
  | cons t ts ih =>
    intro d
    rw [List.getLastD_cons]
    rcases ih t with h | h
    · right; rw [h]; exact List.mem_cons_self t ts
    · right; exact List.mem_cons_of_mem t h

theorem sorted_le_last (tl : List TimelineEntry) :
    ∀ d : TimelineEntry,
      List.Pairwise (fun a b => a.afterSec ≤ b.afterSec) tl →
      ∀ x ∈ tl, x.afterSec ≤ (tl.getLastD d).afterSec := by
  induction tl with
  | nil => intro d _ x hx; cases hx
  | cons t ts ih =>
    intro d hp x hx
    obtain ⟨hhead, htail⟩ := List.pairwise_cons.mp hp
    rw [List.getLastD_cons]
    rcases List.mem_cons.mp hx with hx | hx
    · subst hx
      rcases getLastD_mem_or ts x with he | he
      · rw [he]
      · exact hhead _ he
    · exact ih t htail x hx

theorem timeSelect_eq (tl : List TimelineEntry) (e0 total0 : Int)
    (loop rl : Bool)
    (hsort : List.Pairwise (fun a b => a.afterSec ≤ b.afterSec) tl)
    (he0 : 0 ≤ e0)
    (hle : ∀ x ∈ tl, x.afterSec ≤ total0) :
    chooseTimeline tl
      (if (loop && decide ((if total0 < 0 then 0 else total0) > 0)) = true then
        Int.tmod e0 ((if total0 < 0 then 0 else total0) + 1)
      else if (rl && decide (e0 > (if total0 < 0 then 0 else total0))) = true
        then (if total0 < 0 then 0 else total0)
      else if e0 > (if total0 < 0 then 0 else total0) then
        (if total0 < 0 then 0 else total0)
      else e0) =
    specTimeChoice tl (specTimeElapsed e0 total0 loop) := by
  rw [chooseTimeline_spec _ _ hsort]
  unfold specTimeElapsed
  by_cases h0 : total0 < 0
  · simp only [if_pos h0]
    have hcode : (if (loop && decide ((0:Int) > 0)) = true then
          Int.tmod e0 ((0:Int) + 1)
        else if (rl && decide (e0 > (0:Int))) = true then (0:Int)
        else if e0 > (0:Int) then (0:Int) else e0) = 0 := by
      simp only [Bool.and_eq_true, decide_eq_true_eq]
      split_ifs with hc1 hc2 hc3
      · omega
      · rfl
      · rfl
      · omega
    rw [hcode, if_neg (by omega)]
    have hmin : min e0 total0 = total0 := by omega
    rw [hmin]
    unfold specTimeChoice
    rw [List.filter_eq_self.mpr, List.filter_eq_self.mpr]
    · intro x hx
      simpa using hle x hx
    · intro x hx
      have := hle x hx
      simp only [decide_eq_true_eq]
      omega
  · simp only [if_neg h0]
    by_cases hl : loop = true ∧ total0 > 0
    · rw [if_pos hl]
      have hcond : (loop && decide (total0 > 0)) = true := by
        simp [hl.1, hl.2]
      rw [if_pos hcond, Int.tmod_eq_emod he0 (by omega)]
    · rw [if_neg hl]
      have hcond : ¬ (loop && decide (total0 > 0)) = true := by
        simpa [Bool.and_eq_true, decide_eq_true_eq] using hl
      rw [if_neg hcond]
      have hcode : (if (rl && decide (e0 > total0)) = true then total0
          else if e0 > total0 then total0 else e0) = min e0 total0 := by
        simp only [Bool.and_eq_true, decide_eq_true_eq]
        split_ifs <;> omega
      rw [hcode]

/-- C5: in time mode the resolver publishes the start timestamp on first
access for the key, independently of `startOn` (both branches of the Go
test store the same value), leaves the state untouched when a start
timestamp already exists, computes the elapsed whole seconds since start,
reduces them modulo `total+1` when `loop=true` and `total>0` (with `total`
the last timeline entry's `afterSec`) and otherwise clamps them to
`total`, and answers with the last timeline entry whose `afterSec` is at
most the reduced value.  Concretely, timeline `[(0,t0),(1,t1)]` with
`repeatLast` yields t0, t1, t1 at elapsed 0 s, 1.1 s and 5 s. -/
theorem resolveTime_time_spec (st : ResolverState) (k : String)
    (sc : Scenario) (mth path : String) (now : Int)
    (hne : sc.timeline ≠ [])
    (hsort : List.Pairwise (fun a b => a.afterSec ≤ b.afterSec) sc.timeline)
    (hnow : ∀ t0, st.startedAt k = some t0 → t0 ≤ now) :
    (st.startedAt k = none →
      (resolveTime st k sc mth path now).2.startedAt k = some now) ∧
    (∀ t0, st.startedAt k = some t0 →
      (resolveTime st k sc mth path now).2 = st) ∧
    ((resolveTime st k sc mth path now).1 =
      .ok ((specTimeChoice sc.timeline
          (specTimeElapsed (elapsedSeconds now ((st.startedAt k).getD now))
            (sc.timeline.getLastD ⟨0, "", ""⟩).afterSec sc.behavior.loop)).file,
        (specTimeChoice sc.timeline
          (specTimeElapsed (elapsedSeconds now ((st.startedAt k).getD now))
            (sc.timeline.getLastD ⟨0, "", ""⟩).afterSec sc.behavior.loop)).state)) ∧
    (timeS1.1 = .ok ("t0.json", "t0") ∧
      timeS2.1 = .ok ("t1.json", "t1") ∧
      timeS3.1 = .ok ("t1.json", "t1")) := by
  have hlen : ¬ sc.timeline.length = 0 :=
    fun h0 => hne (List.length_eq_zero.mp h0)
  have hle := sorted_le_last sc.timeline ⟨0, "", ""⟩ hsort
  refine ⟨?_, ?_, ?_, rfl, rfl, rfl⟩
  · intro hpre
    unfold resolveTime
    rw [if_neg hlen]
    dsimp only
    simp only [hpre]
    split_ifs <;> simp [mapSet]
  · intro t0 hpre
    unfold resolveTime
    rw [if_neg hlen]
    dsimp only
    simp only [hpre]
  · unfold resolveTime
    rw [if_neg hlen]
    dsimp only
    rcases hpre : st.startedAt k with - | t0
    · simp only [hpre, Option.getD_none]
      rw [timeSelect_eq sc.timeline _ _ sc.behavior.loop sc.behavior.repeatLast
        hsort (by simp [elapsedSeconds]) hle]
    · simp only [hpre, Option.getD_some]
      have he0 : 0 ≤ elapsedSeconds now t0 := by
        unfold elapsedSeconds
        exact Int.tdiv_nonneg (by have := hnow t0 hpre; omega) (by omega)
      rw [timeSelect_eq sc.timeline _ _ sc.behavior.loop sc.behavior.repeatLast
        hsort he0 hle]

/-- C5 witness: the time specification evaluated on a fresh resolver with
the concrete two-entry timeline at wall-clock 0. -/
theorem resolveTime_time_spec_witness :
    (resolveTime emptyResolver "K" timeScenario "GET" "/x" 0).1 =
      .ok ((specTimeChoice timeScenario.timeline
          (specTimeElapsed (elapsedSeconds 0 ((emptyResolver.startedAt "K").getD 0))
            (timeScenario.timeline.getLastD ⟨0, "", ""⟩).afterSec
            timeScenario.behavior.loop)).file,
        (specTimeChoice timeScenario.timeline
          (specTimeElapsed (elapsedSeconds 0 ((emptyResolver.startedAt "K").getD 0))
            (timeScenario.timeline.getLastD ⟨0, "", ""⟩).afterSec
            timeScenario.behavior.loop)).state) :=
  (resolveTime_time_spec emptyResolver "K" timeScenario "GET" "/x" 0
    (by decide) (by decide) (fun t0 h => Option.noConfusion h)).2.2.1

theorem splitChar_ne_nil (sep : Char) (l : List Char) : splitChar sep l ≠ [] := by
  induction l with
  | nil => simp [splitChar]
  | cons c cs ih =>
    unfold splitChar
    by_cases hc : c = sep
    · simp [hc]
    · rw [if_neg hc]
      rcases h : splitChar sep cs with - | ⟨g, gs⟩
      · exact absurd h ih
      · simp

theorem scoreFold_ge (parts : List String) :
    ∀ init : Int,
      init ≤ parts.foldl (fun s p => if isParamSeg p then s + 0 else s + 10) init := by
  induction parts with
  | nil => intro init; exact le_refl init
  | cons p rest ih =>
    intro init
    rw [List.foldl_cons]
    exact le_trans (by split_ifs <;> omega) (ih _)

theorem routeSpecificityScore_pos (p : String) :
    1 ≤ routeSpecificityScore p := by
  have h1 : splitSlash (trimSlashes p) ≠ [] := by
    unfold splitSlash
    intro h
    exact splitChar_ne_nil '/' (trimSlashes p).data (List.map_eq_nil.mp h)
  have h2 : 0 < (splitSlash (trimSlashes p)).length := List.length_pos.mpr h1
  have h3 : (0 : Int) ≤ (splitSlash (trimSlashes p)).foldl
      (fun s q => if isParamSeg q then s + 0 else s + 10) 0 :=
    scoreFold_ge (splitSlash (trimSlashes p)) 0
  unfold routeSpecificityScore
  dsimp only
  omega

theorem findRouteAux_cases (m path : String) :
    ∀ (rs : List Route) (best : Option Route) (s : Int),
      (findRouteAux m path rs best s = best ∧
        ∀ r ∈ rs, r.method = m → regexMatches r.swagger path = true →
          routeSpecificityScore r.swagger ≤ s) ∨
      (∃ b, findRouteAux m path rs best s = some b ∧
        b.method = m ∧ regexMatches b.swagger path = true ∧ b ∈ rs ∧
        s < routeSpecificityScore b.swagger ∧
        ∀ r ∈ rs, r.method = m → regexMatches r.swagger path = true →
          routeSpecificityScore r.swagger ≤ routeSpecificityScore b.swagger) := by
  intro rs
  induction rs with
  | nil =>
    intro best s
    left
    exact ⟨rfl, fun r h => absurd h (List.not_mem_nil r)⟩
  | cons r rest ih =>
    intro best s
    rw [findRouteAux]
    by_cases h1 : r.method = m
    · rw [if_neg (not_not_intro h1)]
      by_cases h2 : regexMatches r.swagger path = true
      · rw [if_neg (not_not_intro h2)]
        by_cases h3 : routeSpecificityScore r.swagger > s
        · rw [if_pos h3]
          rcases ih (some r) (routeSpecificityScore r.swagger) with
            ⟨e, hall⟩ | ⟨b, e, hbm, hbr, hbmem, hs, hbound⟩
          · right
            refine ⟨r, e, h1, h2, List.mem_cons_self r rest, h3, ?_⟩
            intro x hx hxm hxr
            rcases List.mem_cons.mp hx with hx | hx
            · subst hx; exact le_refl _
            · exact hall x hx hxm hxr
          · right
            refine ⟨b, e, hbm, hbr, List.mem_cons_of_mem r hbmem,
              lt_trans h3 hs, ?_⟩
            intro x hx hxm hxr
            rcases List.mem_cons.mp hx with hx | hx
            · subst hx; exact le_of_lt hs
            · exact hbound x hx hxm hxr
        · rw [if_neg h3]
          rcases ih best s with ⟨e, hall⟩ | ⟨b, e, hbm, hbr, hbmem, hs, hbound⟩
          · left
            refine ⟨e, ?_⟩
            intro x hx hxm hxr
            rcases List.mem_cons.mp hx with hx | hx
            · subst hx; omega
            · exact hall x hx hxm hxr
          · right
            refine ⟨b, e, hbm, hbr, List.mem_cons_of_mem r hbmem, hs, ?_⟩
            intro x hx hxm hxr
            rcases List.mem_cons.mp hx with hx | hx
            · subst hx; omega
            · exact hbound x hx hxm hxr
      · rw [if_pos h2]
        rcases ih best s with ⟨e, hall⟩ | ⟨b, e, hbm, hbr, hbmem, hs, hbound⟩
        · left
          refine ⟨e, ?_⟩
          intro x hx hxm hxr
          rcases List.mem_cons.mp hx with hx | hx
          · subst hx; exact absurd hxr h2
          · exact hall x hx hxm hxr
        · right
          exact ⟨b, e, hbm, hbr, List.mem_cons_of_mem r hbmem, hs,
            fun x hx hxm hxr => by
              rcases List.mem_cons.mp hx with hx | hx
              · subst hx; exact absurd hxr h2
              · exact hbound x hx hxm hxr⟩
    · rw [if_pos h1]
      rcases ih best s with ⟨e, hall⟩ | ⟨b, e, hbm, hbr, hbmem, hs, hbound⟩
      · left
        refine ⟨e, ?_⟩
        intro x hx hxm hxr
        rcases List.mem_cons.mp hx with hx | hx
        · subst hx; exact absurd hxm h1
        · exact hall x hx hxm hxr
      · right
        exact ⟨b, e, hbm, hbr, List.mem_cons_of_mem r hbmem, hs,
          fun x hx hxm hxr => by
            rcases List.mem_cons.mp hx with hx | hx
            · subst hx; exact absurd hxm h1
            · exact hbound x hx hxm hxr⟩

/-- C6: `FindRoute` considers exactly the routes whose uppercased method
equals the uppercased request method and whose compiled regex matches the
path (the router stores methods uppercased, which `hup` captures); it
returns `none` iff there is no such candidate, and any returned route is a
candidate of maximal specificity score (10 per literal segment, 0 per
parameter segment, plus 1 per segment); being a pure function of the fixed
route list, the selection is deterministic.  When no candidate matches,
the Dispatcher surfaces the miss as a 404 (for non-health requests). -/
theorem findRoute_spec (routes : List Route) (method path : String)
    (hup : ∀ r ∈ routes, goUpper r.method = r.method) :
    (findRoute routes method path = none ↔
      routeCandidates routes method path = []) ∧
    (∀ b, findRoute routes method path = some b →
      b ∈ routeCandidates routes method path ∧
      ∀ r ∈ routeCandidates routes method path,
        routeSpecificityScore r.swagger ≤ routeSpecificityScore b.swagger) ∧
    (∀ deps, findRoute routes method path = none →
      (method = "GET" && (path = "/health/alive" || path = "/health/ready" ||
        path = "/health/started")) = false →
      handle deps routes method path = .noRoute ∧
        statusOf (handle deps routes method path) = 404) := by
  have hpred : ∀ r ∈ routes,
      ((goUpper r.method = goUpper method && regexMatches r.swagger path) = true ↔
        (r.method = goUpper method ∧ regexMatches r.swagger path = true)) := by
    intro r hr
    rw [hup r hr]
    simp
  rcases findRouteAux_cases (goUpper method) path routes none (-1) with
    ⟨e, hall⟩ | ⟨b, e, hbm, hbr, hbmem, -, hbound⟩
  · have hnone : findRoute routes method path = none := e
    have hcand : routeCandidates routes method path = [] := by
      rw [routeCandidates, List.filter_eq_nil]
      intro r hr hpr
      obtain ⟨hm, hx⟩ := (hpred r hr).mp hpr
      have := hall r hr hm hx
      have := routeSpecificityScore_pos r.swagger
      omega
    refine ⟨by simp [hnone, hcand], ?_, ?_⟩
    · intro b hb
      rw [hnone] at hb
      cases hb
    · intro deps _ hhealth
      have hh : handle deps routes method path = .noRoute := by
        unfold handle
        rw [if_neg (by rw [hhealth]; exact Bool.false_ne_true), hnone]
      exact ⟨hh, by rw [hh]; rfl⟩
  · have hsome : findRoute routes method path = some b := e
    have hbcand : b ∈ routeCandidates routes method path := by
      rw [routeCandidates, List.mem_filter]
      exact ⟨hbmem, (hpred b hbmem).mpr ⟨hbm, hbr⟩⟩
    refine ⟨?_, ?_, ?_⟩
    · constructor
      · intro h; rw [hsome] at h; cases h
      · intro h
        rw [h] at hbcand
        cases hbcand
    · intro b2 hb2
      rw [hsome] at hb2
      injection hb2 with hb2
      subst hb2
      refine ⟨hbcand, ?_⟩
      intro r hr
      rw [routeCandidates, List.mem_filter] at hr
      obtain ⟨hm, hx⟩ := (hpred r hr.1).mp hr.2
      exact hbound r hr.1 hm hx
    · intro deps hn
      rw [hsome] at hn
      cases hn

/-- C6 witness: the specification evaluated on a two-route table where the
literal route must beat the parameterised one. -/
theorem findRoute_spec_witness :
    (⟨"GET", "/scans/all", "GET__scans_all.json"⟩ : Route) ∈
      routeCandidates demoRoutes "get" "/scans/all" ∧
    ∀ r ∈ routeCandidates demoRoutes "get" "/scans/all",
      routeSpecificityScore r.swagger ≤
        routeSpecificityScore (Route.mk "GET" "/scans/all"
          "GET__scans_all.json").swagger :=
  (findRoute_spec demoRoutes "get" "/scans/all" (by decide)).2.1
    ⟨"GET", "/scans/all", "GET__scans_all.json"⟩ (by decide)

theorem insertHeader_mem_inv (h : List (String × String)) (k v : String) :
    ∀ x ∈ insertHeader h k v, x ∈ h ∨ x.1 = k := by
  induction h with
  | nil =>
    intro x hx
    rcases List.mem_singleton.mp hx with rfl
    right; rfl
  | cons kv0 rest ih =>
    intro x hx
    rcases kv0 with ⟨k0, v0⟩
    unfold insertHeader at hx
    by_cases hk : k = k0
    · rw [if_pos hk] at hx
      rcases List.mem_cons.mp hx with hx | hx
      · right; rw [hx]
      · left; exact List.mem_cons_of_mem _ hx
    · rw [if_neg hk] at hx
      rcases List.mem_cons.mp hx with hx | hx
      · left; rw [hx]; exact List.mem_cons_self _ _
      · rcases ih x hx with hx2 | hx2
        · left; exact List.mem_cons_of_mem _ hx2
        · right; exact hx2

theorem insertHeader_nodup (h : List (String × String)) (k v : String)
    (hn : HeadersNodupKeys h) : HeadersNodupKeys (insertHeader h k v) := by
  induction h with
  | nil => exact List.pairwise_singleton _ _
  | cons kv0 rest ih =>
    rcases kv0 with ⟨k0, v0⟩
    obtain ⟨hhead, htail⟩ := List.pairwise_cons.mp hn
    unfold insertHeader
    by_cases hk : k = k0
    · rw [if_pos hk]
      refine List.pairwise_cons.mpr ⟨?_, htail⟩
      intro x hx
      rw [hk]
      exact hhead x hx
    · rw [if_neg hk]
      refine List.pairwise_cons.mpr ⟨?_, ih htail⟩
      intro x hx
      rcases insertHeader_mem_inv rest k v x hx with hx2 | hx2
      · exact hhead x hx2
      · rw [hx2]
        exact fun he => hk he.symm

theorem headersFromJsonAux_nodup :
    ∀ (fields : List (String × Json)) (acc res : List (String × String)),
      HeadersNodupKeys acc → headersFromJsonAux fields acc = some res →
      HeadersNodupKeys res := by
  intro fields
  induction fields with
  | nil =>
    intro acc res hacc h
    injection h with h
    rw [← h]; exact hacc
  | cons f rest ih =>
    intro acc res hacc h
    rcases f with ⟨k, v⟩
    cases v with
    | str s => exact ih _ res (insertHeader_nodup acc k s hacc) h
    | null => cases h
    | bool b => cases h
    | num q => cases h
    | arr xs => cases h
    | obj fs => cases h

theorem headerGet_insert_self (h : List (String × String)) (k v : String) :
    (headerGet (insertHeader h k v) k).isSome = true := by
  induction h with
  | nil => simp [headerGet, insertHeader, List.find?]
  | cons kv0 rest ih =>
    rcases kv0 with ⟨k0, v0⟩
    unfold insertHeader
    by_cases hk : k = k0
    · rw [if_pos hk]
      simp [headerGet, List.find?]
    · rw [if_neg hk]
      unfold headerGet
      by_cases hl : goLower k0 = goLower k
      · rw [List.find?_cons_of_pos _ (by simpa using hl)]
        rfl
      · rw [List.find?_cons_of_neg _ (by simpa using hl)]
        exact ih

theorem insertHeader_fresh (h : List (String × String)) (k v : String)
    (hf : ∀ kv ∈ h, kv.1 ≠ k) : insertHeader h k v = h ++ [(k, v)] := by
  induction h with
  | nil => rfl
  | cons kv0 rest ih =>
    rcases kv0 with ⟨k0, v0⟩
    unfold insertHeader
    rw [if_neg (fun he => hf (k0, v0) (List.mem_cons_self _ _) he.symm)]
    rw [ih (fun kv hm => hf kv (List.mem_cons_of_mem _ hm))]
    rfl

theorem headersFromJsonAux_roundtrip :
    ∀ (h : List (String × String)) (acc : List (String × String)),
      HeadersNodupKeys h → (∀ a ∈ acc, ∀ b ∈ h, a.1 ≠ b.1) →
      headersFromJsonAux (h.map fun kv => (kv.1, Json.str kv.2)) acc =
        some (acc ++ h) := by
  intro h
  induction h with
  | nil =>
    intro acc _ _
    rw [List.map_nil, List.append_nil]
    rfl
  | cons kv rest ih =>
    intro acc hn hcross
    rcases kv with ⟨k, v⟩
    obtain ⟨hhead, htail⟩ := List.pairwise_cons.mp hn
    rw [List.map_cons]
    show headersFromJsonAux _ (insertHeader acc k v) = _
    rw [insertHeader_fresh acc k v
      (fun a ha => hcross a ha (k, v) (List.mem_cons_self _ _))]
    rw [ih (acc ++ [(k, v)]) htail ?_]
    · rw [List.append_assoc]
      rfl
    · intro a ha b hb
      rcases List.mem_append.mp ha with ha | ha
      · exact hcross a ha b (List.mem_cons_of_mem _ hb)
      · rcases List.mem_singleton.mp ha with rfl
        exact hhead b hb

theorem headersFromJsonAux_map (h : List (String × String)) :
    ∀ acc, headersFromJsonAux (h.map fun kv => (kv.1, Json.str kv.2)) acc =
      some (h.foldl (fun acc kv => insertHeader acc kv.1 kv.2) acc) := by
  induction h with
  | nil => intro acc; rfl
  | cons kv rest ih =>
    intro acc
    rcases kv with ⟨k, v⟩
    rw [List.map_cons, List.foldl_cons]
    exact ih (insertHeader acc k v)

theorem decodeEnvelope_inv (fields : List (String × Json)) (s : Int)
    (hdrs : Option (List (String × String))) (b : Json)
    (h : decodeEnvelope fields = some (s, hdrs, b)) :
    decodeStatus (lookupLast fields "status") = some s ∧
      decodeHeaders (lookupLast fields "headers") = some hdrs ∧
      decodeBody (lookupLast fields "body") = b := by
  unfold decodeEnvelope at h
  rcases h1 : decodeStatus (lookupLast fields "status") with - | s2 <;>
    rw [h1] at h
  · cases h
  · rcases h2 : decodeHeaders (lookupLast fields "headers") with - | h2v <;>
      rw [h2] at h
    · cases h
    · injection h with h
      simp only [Prod.mk.injEq] at h
      obtain ⟨e1, e2, e3⟩ := h
      exact ⟨by rw [e1], by rw [e2], e3⟩

theorem decodeHeaders_nodup (oj : Option Json)
    (hdrs : Option (List (String × String)))
    (h : decodeHeaders oj = some hdrs) : HeadersNodupKeys (hdrs.getD []) := by
  cases oj with
  | none =>
    injection h with h
    rw [← h]
    exact List.Pairwise.nil
  | some j =>
    cases j with
    | null =>
      injection h with h
      rw [← h]
      exact List.Pairwise.nil
    | obj fs =>
      have h' : Option.map some (headersFromJson fs) = some hdrs := h
      rcases h2 : headersFromJson fs with - | hv
      · rw [h2] at h'
        cases h'
      · rw [h2] at h'
        injection h' with h'
        rw [← h']
        exact headersFromJsonAux_nodup fs [] hv List.Pairwise.nil h2
    | bool b => cases h
    | num q => cases h
    | str s => cases h
    | arr xs => cases h

theorem loadFile_good (c : SampleContent) : GoodResponse (loadFile c) := by
  have hdefault : ∀ bd : Body,
      GoodResponse ⟨200, [("content-type", "application/json")], bd⟩ :=
    fun bd => ⟨show (200 : Int) ≠ 0 by decide, List.pairwise_singleton _ _, rfl⟩
  cases c with
  | empty => exact hdefault _
  | text s => exact hdefault _
  | jsonVal j =>
    cases j with
    | obj fields =>
      by_cases hl : looksLikeEnvelope fields = true
      · rcases hd : decodeEnvelope fields with - | ⟨s, hdrs, body⟩
        · have heq : loadFile (.jsonVal (.obj fields)) =
              ⟨200, [("content-type", "application/json")],
                .json (.obj fields)⟩ := by
            simp only [loadFile]
            rw [if_pos hl, hd]
          rw [heq]
          exact hdefault _
        · have heq : loadFile (.jsonVal (.obj fields)) =
              ⟨(if s = 0 then 200 else s),
                (if (headerGet (hdrs.getD []) "content-type").isSome then
                  hdrs.getD []
                else insertHeader (hdrs.getD []) "content-type"
                  "application/json"),
                .json (bodyOrEmptyObj body)⟩ := by
            simp only [loadFile]
            rw [if_pos hl, hd]
          rw [heq]
          obtain ⟨-, h2, -⟩ := decodeEnvelope_inv fields s hdrs body hd
          have hnd := decodeHeaders_nodup _ _ h2
          refine ⟨?_, ?_, ?_⟩
          · show (if s = 0 then 200 else s) ≠ 0
            by_cases hs : s = 0
            · rw [if_pos hs]; omega
            · rw [if_neg hs]; exact hs
          · show HeadersNodupKeys (if _ then _ else _)
            by_cases hct : (headerGet (hdrs.getD []) "content-type").isSome = true
            · rw [if_pos hct]; exact hnd
            · rw [if_neg hct]; exact insertHeader_nodup _ _ _ hnd
          · show (headerGet (if _ then _ else _) "content-type").isSome = true
            by_cases hct : (headerGet (hdrs.getD []) "content-type").isSome = true
            · rw [if_pos hct]; exact hct
            · rw [if_neg hct]; exact headerGet_insert_self _ _ _
      · have heq : loadFile (.jsonVal (.obj fields)) =
            ⟨200, [("content-type", "application/json")],
              .json (.obj fields)⟩ := by
          simp only [loadFile]
          rw [if_neg hl]
        rw [heq]
        exact hdefault _
    | null => exact hdefault _
    | bool b => exact hdefault _
    | num q => exact hdefault _
    | str s => exact hdefault _
    | arr xs => exact hdefault _

theorem decodeStatus_int (s : Int) :
    decodeStatus (some (.num (s : Rat))) = some s := by
  show (if ((s : Rat)).den = 1 then some ((s : Rat)).num else none) = some s
  rw [if_pos (by simp)]
  simp

theorem loadFile_obj_envelope (fields : List (String × Json))
    (hl : looksLikeEnvelope fields = true) (s : Int)
    (hdrs : Option (List (String × String))) (body : Json)
    (hd : decodeEnvelope fields = some (s, hdrs, body)) :
    loadFile (.jsonVal (.obj fields)) =
      ⟨(if s = 0 then 200 else s),
        (if (headerGet (hdrs.getD []) "content-type").isSome then hdrs.getD []
          else insertHeader (hdrs.getD []) "content-type" "application/json"),
        .json (bodyOrEmptyObj body)⟩ := by
  simp only [loadFile]
  rw [if_pos hl, hd]

theorem loadFile_obj_notEnvelope (fields : List (String × Json))
    (hl : looksLikeEnvelope fields = false) :
    loadFile (.jsonVal (.obj fields)) =
      ⟨200, [("content-type", "application/json")], .json (.obj fields)⟩ := by
  simp only [loadFile]
  rw [if_neg (by rw [hl]; exact Bool.false_ne_true)]

theorem decodeHeaders_roundtrip (h : List (String × String))
    (hnd : HeadersNodupKeys h) :
    decodeHeaders (some (.obj (h.map fun kv => (kv.1, Json.str kv.2)))) =
      some (some h) := by
  show Option.map some (headersFromJson (h.map fun kv => (kv.1, Json.str kv.2))) = _
  rw [headersFromJson,
    headersFromJsonAux_roundtrip h [] hnd (fun a ha => absurd ha (List.not_mem_nil a)),
    List.nil_append]
  rfl

theorem decodeHeaders_map (h : List (String × String)) :
    decodeHeaders (some (.obj (h.map fun kv => (kv.1, Json.str kv.2)))) =
      some (some (canonHeaders h)) := by
  show Option.map some (headersFromJson (h.map fun kv => (kv.1, Json.str kv.2))) = _
  rw [headersFromJson, headersFromJsonAux_map h []]
  rfl

theorem bodyOrEmptyObj_ne_null (bj : Json) (h : bj ≠ .null) :
    bodyOrEmptyObj bj = bj := by
  cases bj with
  | null => exact absurd rfl h
  | bool b => rfl
  | num q => rfl
  | str s => rfl
  | arr xs => rfl
  | obj fs => rfl

/-- C8 counterexample: a sample file whose raw content is the bare JSON
value `null` loads to an envelope with body `null`; its marshalled form
declares `"body": null`, which the loader conflates with an absent body
and replaces by the empty object — so the reload is NOT equal to the
original envelope. -/
theorem loadFile_roundtrip_cex :
    loadFile (.jsonVal .null) =
      ⟨200, [("content-type", "application/json")], .json .null⟩ ∧
    loadFile (marshalEnvelope 200 [("content-type", "application/json")] .null) =
      ⟨200, [("content-type", "application/json")], .json (.obj [])⟩ ∧
    (loadFile (marshalEnvelope 200 [("content-type", "application/json")]
        .null)).body ≠
      (loadFile (.jsonVal .null)).body :=
  ⟨rfl, rfl, fun h => Json.noConfusion (Body.json.inj h)⟩

/-- C8 (amended): loading the marshalled form of a previously loaded
envelope yields an equal envelope, provided the original envelope's body
is not the JSON value `null` (the only loader output whose body marshals
to `null` — produced by a file whose raw content is the bare value
`null` — reloads with body `\x7b\x7d` instead, see the counterexample). -/
theorem loadFile_roundtrip (c : SampleContent) (bj : Json)
    (hbody : (loadFile c).body = .json bj) (hnull : bj ≠ .null) :
    loadFile (marshalEnvelope (loadFile c).status (loadFile c).headers bj) =
      loadFile c := by
  obtain ⟨hst, hnd, hct⟩ := loadFile_good c
  have hdec : decodeEnvelope
      [("status", .num ((loadFile c).status : Rat)),
       ("headers", .obj ((loadFile c).headers.map fun kv => (kv.1, .str kv.2))),
       ("body", bj)] =
      some ((loadFile c).status, some (loadFile c).headers, bj) := by
    unfold decodeEnvelope
    have hlk1 : lookupLast
        [("status", .num ((loadFile c).status : Rat)),
         ("headers", .obj ((loadFile c).headers.map fun kv => (kv.1, .str kv.2))),
         ("body", bj)] "status" = some (.num ((loadFile c).status : Rat)) := rfl
    have hlk2 : lookupLast
        [("status", .num ((loadFile c).status : Rat)),
         ("headers", .obj ((loadFile c).headers.map fun kv => (kv.1, .str kv.2))),
         ("body", bj)] "headers" =
        some (.obj ((loadFile c).headers.map fun kv => (kv.1, .str kv.2))) := rfl
    have hlk3 : lookupLast
        [("status", .num ((loadFile c).status : Rat)),
         ("headers", .obj ((loadFile c).headers.map fun kv => (kv.1, .str kv.2))),
         ("body", bj)] "body" = some bj := rfl
    rw [hlk1, hlk2, hlk3, decodeStatus_int, decodeHeaders_roundtrip _ hnd]
    rfl
  have hmid := loadFile_obj_envelope _ (by rfl) _ _ _ hdec
  rw [show marshalEnvelope (loadFile c).status (loadFile c).headers bj =
      .jsonVal (.obj
        [("status", .num ((loadFile c).status : Rat)),
         ("headers", .obj ((loadFile c).headers.map fun kv => (kv.1, .str kv.2))),
         ("body", bj)]) from rfl]
  rw [hmid]
  rw [if_neg hst]
  simp only [Option.getD_some]
  rw [if_pos hct, bodyOrEmptyObj_ne_null bj hnull, ← hbody]

/-- C8 witness: the amended statement evaluated on the concrete envelope
file declaring status 503. -/
theorem loadFile_roundtrip_witness :
    loadFile (marshalEnvelope
        (loadFile (.jsonVal (.obj [("status", .num 503)]))).status
        (loadFile (.jsonVal (.obj [("status", .num 503)]))).headers
        (.obj [])) =
      loadFile (.jsonVal (.obj [("status", .num 503)])) :=
  loadFile_roundtrip (.jsonVal (.obj [("status", .num 503)])) (.obj [])
    (by rfl) (fun h => Json.noConfusion h)

theorem loadFile_envObj (st : Option Int)
    (hs : Option (List (String × String))) (bd : Option Json) :
    loadFile (envObj st hs bd) =
      ⟨(if st.getD 0 = 0 then 200 else st.getD 0),
        (if (headerGet ((hs.map canonHeaders).getD []) "content-type").isSome
          then (hs.map canonHeaders).getD []
          else insertHeader ((hs.map canonHeaders).getD []) "content-type"
            "application/json"),
        .json (bodyOrEmptyObj (bd.getD .null))⟩ := by
  rcases st with - | s
  · rcases hs with - | h
    · rcases bd with - | b
      · rfl
      · have hd : decodeEnvelope [("body", b)] = some (0, none, b) := rfl
        rw [show envObj none none (some b) =
            .jsonVal (.obj [("body", b)]) from rfl]
        rw [loadFile_obj_envelope _ (by rfl) 0 none b hd]
        rfl
    · rcases bd with - | b
      · have hd : decodeEnvelope
            [("headers", Json.obj (h.map fun kv => (kv.1, Json.str kv.2)))] =
            some (0, some (canonHeaders h), .null) := by
          unfold decodeEnvelope
          rw [show lookupLast
              [("headers", Json.obj (h.map fun kv => (kv.1, Json.str kv.2)))]
              "headers" =
              some (Json.obj (h.map fun kv => (kv.1, Json.str kv.2))) from rfl,
            decodeHeaders_map]
          rfl
        rw [show envObj none (some h) none = .jsonVal (.obj
            [("headers", Json.obj (h.map fun kv => (kv.1, Json.str kv.2)))])
            from rfl]
        rw [loadFile_obj_envelope _ (by rfl) 0 (some (canonHeaders h)) .null hd]
        rfl
      · have hd : decodeEnvelope
            [("headers", Json.obj (h.map fun kv => (kv.1, Json.str kv.2))),
             ("body", b)] =
            some (0, some (canonHeaders h), b) := by
          unfold decodeEnvelope
          rw [show lookupLast
              [("headers", Json.obj (h.map fun kv => (kv.1, Json.str kv.2))),
               ("body", b)] "headers" =
              some (Json.obj (h.map fun kv => (kv.1, Json.str kv.2))) from rfl,
            decodeHeaders_map]
          rfl
        rw [show envObj none (some h) (some b) = .jsonVal (.obj
            [("headers", Json.obj (h.map fun kv => (kv.1, Json.str kv.2))),
             ("body", b)]) from rfl]
        rw [loadFile_obj_envelope _ (by rfl) 0 (some (canonHeaders h)) b hd]
        rfl
  · rcases hs with - | h
    · rcases bd with - | b
      · have hd : decodeEnvelope [("status", Json.num (s : Rat))] =
            some (s, none, .null) := by
          unfold decodeEnvelope
          rw [show lookupLast [("status", Json.num (s : Rat))] "status" =
              some (Json.num (s : Rat)) from rfl, decodeStatus_int]
          rfl
        rw [show envObj (some s) none none =
            .jsonVal (.obj [("status", Json.num (s : Rat))]) from rfl]
        rw [loadFile_obj_envelope _ (by rfl) s none .null hd]
        rfl
      · have hd : decodeEnvelope
            [("status", Json.num (s : Rat)), ("body", b)] =
            some (s, none, b) := by
          unfold decodeEnvelope
          rw [show lookupLast [("status", Json.num (s : Rat)), ("body", b)]
              "status" = some (Json.num (s : Rat)) from rfl, decodeStatus_int]
          rfl
        rw [show envObj (some s) none (some b) = .jsonVal (.obj
            [("status", Json.num (s : Rat)), ("body", b)]) from rfl]
        rw [loadFile_obj_envelope _ (by rfl) s none b hd]
        rfl
    · rcases bd with - | b
      · have hd : decodeEnvelope
            [("status", Json.num (s : Rat)),
             ("headers", Json.obj (h.map fun kv => (kv.1, Json.str kv.2)))] =
            some (s, some (canonHeaders h), .null) := by
          unfold decodeEnvelope
          rw [show lookupLast
              [("status", Json.num (s : Rat)),
               ("headers", Json.obj (h.map fun kv => (kv.1, Json.str kv.2)))]
              "status" = some (Json.num (s : Rat)) from rfl,
            show lookupLast
              [("status", Json.num (s : Rat)),
               ("headers", Json.obj (h.map fun kv => (kv.1, Json.str kv.2)))]
              "headers" =
              some (Json.obj (h.map fun kv => (kv.1, Json.str kv.2))) from rfl,
            decodeStatus_int, decodeHeaders_map]
          rfl
        rw [show envObj (some s) (some h) none = .jsonVal (.obj
            [("status", Json.num (s : Rat)),
             ("headers", Json.obj (h.map fun kv => (kv.1, Json.str kv.2)))])
            from rfl]
        rw [loadFile_obj_envelope _ (by rfl) s (some (canonHeaders h)) .null hd]
        rfl
      · have hd : decodeEnvelope
            [("status", Json.num (s : Rat)),
             ("headers", Json.obj (h.map fun kv => (kv.1, Json.str kv.2))),
             ("body", b)] =
            some (s, some (canonHeaders h), b) := by
          unfold decodeEnvelope
          rw [show lookupLast
              [("status", Json.num (s : Rat)),
               ("headers", Json.obj (h.map fun kv => (kv.1, Json.str kv.2))),
               ("body", b)]
              "status" = some (Json.num (s : Rat)) from rfl,
            show lookupLast
              [("status", Json.num (s : Rat)),
               ("headers", Json.obj (h.map fun kv => (kv.1, Json.str kv.2))),
               ("body", b)]
              "headers" =
              some (Json.obj (h.map fun kv => (kv.1, Json.str kv.2))) from rfl,
            decodeStatus_int, decodeHeaders_map]
          rfl
        rw [show envObj (some s) (some h) (some b) = .jsonVal (.obj
            [("status", Json.num (s : Rat)),
             ("headers", Json.obj (h.map fun kv => (kv.1, Json.str kv.2))),
             ("body", b)]) from rfl]
        rw [loadFile_obj_envelope _ (by rfl) s (some (canonHeaders h)) b hd]
        rfl

/-- C10: at the sample-file interface an envelope explicitly declaring
status 0 or body null is indistinguishable from one omitting those keys —
the loader conflates the declared Go zero values with absence when
applying defaults, producing status 200 and body `\x7b\x7d` respectively
(for any combination of the remaining envelope keys). -/
theorem loadFile_zero_null_defaults :
    (∀ (hs : Option (List (String × String))) (bd : Option Json),
      loadFile (envObj (some 0) hs bd) = loadFile (envObj none hs bd)) ∧
    (∀ (st : Option Int) (hs : Option (List (String × String))),
      loadFile (envObj st hs (some .null)) = loadFile (envObj st hs none)) ∧
    (∀ (hs : Option (List (String × String))) (bd : Option Json),
      (loadFile (envObj (some 0) hs bd)).status = 200) ∧
    (∀ (st : Option Int) (hs : Option (List (String × String))),
      (loadFile (envObj st hs (some .null))).body = .json (.obj [])) := by
  refine ⟨?_, ?_, ?_, ?_⟩
  · intro hs bd
    rw [loadFile_envObj, loadFile_envObj]
    rfl
  · intro st hs
    rw [loadFile_envObj, loadFile_envObj]
    rfl
  · intro hs bd
    rw [loadFile_envObj]
    rfl
  · intro st hs
    rw [loadFile_envObj]
    rfl

/-- C1 counterexample: `TryResetByRequest` reports `true` for a request
that matches a registered reset rule even though no runtime slot (no
`stepIndex` and no `startedAt` entry) exists at all — the return value
never consults slot existence, while the claim requires `true` iff a slot
existed. -/
theorem tryResetByRequest_cex :
    (tryResetByRequest cexResetState "DELETE" "/scans/2").1 = true ∧
      cexResetState.stepIndex = (fun _ => none) ∧
      cexResetState.startedAt = (fun _ => none) :=
  ⟨rfl, rfl, rfl⟩

/-- C1 (amended): `TryResetByRequest` returns true iff at least one entry
registered under the uppercased method matches the request (suffix match
of its rule template, key parameter extractable and non-blank) — whether
or not a runtime slot existed.  After the call, every runtime key so
matched has no `stepIndex`, `startedAt`, or `resetRules` entry, so the
next step-mode resolution for that key observes sequence index 0 and a
time-mode resolution finds no start timestamp. -/
theorem tryResetByRequest_spec (st : ResolverState) (method actualPath : String) :
    ((tryResetByRequest st method actualPath).1 = true ↔
      ∃ e ∈ st.resetByMethod (goUpper method),
        (entryResetKey e actualPath).isSome = true) ∧
    (∀ e ∈ st.resetByMethod (goUpper method), ∀ k,
      entryResetKey e actualPath = some k →
      (tryResetByRequest st method actualPath).2.stepIndex k = none ∧
      (tryResetByRequest st method actualPath).2.startedAt k = none ∧
      (tryResetByRequest st method actualPath).2.resetRules k = none) ∧
    (∀ e ∈ st.resetByMethod (goUpper method), ∀ k,
      entryResetKey e actualPath = some k →
      ∀ sc mth, sc.sequence ≠ [] →
        (resolveStep (tryResetByRequest st method actualPath).2 k sc mth).1 =
          .ok ((sc.sequence.headD ⟨"", ""⟩).file,
            (sc.sequence.headD ⟨"", ""⟩).state)) := by
  have hmain : tryResetByRequest st method actualPath =
      if (st.resetByMethod (goUpper method)).isEmpty then (false, st)
      else (st.resetByMethod (goUpper method)).foldl (tryResetStep actualPath)
        (false, st) := rfl
  rcases hl : st.resetByMethod (goUpper method) with - | ⟨e, rest⟩
  · rw [hmain, hl]
    simp
  · rw [hmain, hl]
    rw [if_neg (by simp)]
    obtain ⟨h1, -, h3⟩ := tryResetFold_spec actualPath (e :: rest) false st
    refine ⟨?_, ?_, ?_⟩
    · rw [h1]
      simp [List.any_eq_true]
    · intro x hx k hxk
      exact h3 x hx k hxk
    · intro x hx k hxk sc mth hne
      exact resolveStep_fresh _ k sc mth (h3 x hx k hxk).1 hne

/-- C1 witness: the amended statement evaluated on the registered-rule
state with no runtime slots. -/
theorem tryResetByRequest_spec_witness :
    (tryResetByRequest cexResetState "DELETE" "/scans/2").1 = true ∧
      (tryResetByRequest cexResetState "DELETE" "/scans/2").2.stepIndex
        (scenarioRuntimeKey "/scans/{id}/status" "2") = none :=
  ⟨(tryResetByRequest_spec cexResetState "DELETE" "/scans/2").1.mpr
    ⟨⟨⟨"DELETE", "/scans/{id}"⟩, ⟨"/scans/{id}/status", "id"⟩⟩, by decide, by decide⟩,
    ((tryResetByRequest_spec cexResetState "DELETE" "/scans/2").2.1
      ⟨⟨"DELETE", "/scans/{id}"⟩, ⟨"/scans/{id}/status", "id"⟩⟩ (by decide)
      (scenarioRuntimeKey "/scans/{id}/status" "2") (by decide)).1⟩

/-- C4 (amended): reset-rule matching is by path-template suffix — a rule
template matches a concrete path exactly when the concrete path has at
least as many segments as the template and the template's non-parameter
segments equal the trailing segments of the concrete path, with `{name}`
parameter segments accepting ANY segment (the empty segment included);
in particular a scenario resolved under `/scans/{id}/status` with resetOn
`DELETE /scans/{id}` is reset by `TryResetByRequest("DELETE", "/scans/1")`,
which clears the runtime slot of key id=1. -/
theorem matchTemplatePathSuffix_spec :
    (∀ tpl actual,
      matchTemplatePathSuffix tpl actual = true ↔ SuffixMatches tpl actual) ∧
    (tryResetByRequest scanState "DELETE" "/scans/1").1 = true ∧
    (tryResetByRequest scanState "DELETE" "/scans/1").2.stepIndex
      (scenarioRuntimeKey "/scans/{id}/status" "1") = none := by
  refine ⟨fun tpl actual => ?_, by rfl, by rfl⟩
  exact segs_suffix_iff (splitSlash (trimSlashes tpl)) (splitSlash (trimSlashes actual))

end Emu
